import Mathlib

/-!
Verification of the asynchronous HTTP core of the `soa` repository against its
specification.  The definitions below are shallow embeddings of the C++ source:

* `Soa.HRP`   — `HttpResponseParser` from `src/unnamed/part_001` (lines 122-361),
* `Soa.HP`    — the combined `HttpParser` header recognition (spec-modelled,
                declaration in `src/service/http_parsers.h`),
* `Soa.Tcp`   — `ClientTcpSocket::write` from the `tcp_socket.cc` part of
                `src/service/http_parsers.h` (lines 428-471),
* `Soa.Rest`  — `PathSpec`, `RequestFilter`, `RestRequestParsingContext` and
                `RestRequestRouter` from `src/unnamed/part_001` (lines 735-1656)
                and `src/service/in_process_rest_connection.h`,
* `Soa.Pool`  — the `HttpClient` connection pool from `src/unnamed/part_001`
                (lines 535-682).
-/

set_option maxRecDepth 8000

namespace Soa

namespace HRP

/-- Callback events emitted by `HttpResponseParser` (src/unnamed/part_001):
`onResponseStart(version, code)`, `onHeader(line, size)`, `onData(bytes, size)`
and `onDone()`. -/
inductive Ev where
  | start (version : List Char) (code : Nat)
  | header (line : List Char)
  | data (bytes : List Char)
  | done
  deriving DecidableEq, Repr

/-- The three values taken by the `state_` member of `HttpResponseParser`:
`0` (status line), `1` (headers), `2` (body). -/
inductive Stage where
  | statusLine
  | headers
  | body
  deriving DecidableEq, Repr

/-- Persistent state of `HttpResponseParser` between `feed` calls:
`state_`, the carry-over `buffer_` and `remainingBody_` (lines 124-132). -/
structure St where
  state_ : Stage
  buffer_ : List Char
  remainingBody_ : Nat
  deriving DecidableEq, Repr

/-- The parser state produced by `HttpResponseParser::clear()` (lines 124-132):
`state_ = 0`, empty buffer, `remainingBody_ = 0`. -/
def initSt : St := ⟨Stage.statusLine, [], 0⟩

/-- Scanner core for the `skipToChar` lambda of `feed` (lines 168-180): scan the
remaining characters, tracking the absolute index `i`; stop at `c`, or fail on
an end-of-line character when `throwOnEol` is set. -/
def skipToCharAux (c : Char) (throwOnEol : Bool) : List Char → Nat → Except String (Option Nat)
  | [], _ => .ok none
  | x :: rest, i =>
    if x = c then .ok (some i)
    else if throwOnEol ∧ (x = '\r' ∨ x = '\n') then .error "unexpected end of line"
    else skipToCharAux c throwOnEol rest (i + 1)

/-- The `skipToChar` lambda of `feed` (lines 168-180), scanning `data` from
index `ptr`.  Returns the index where `c` was found; `none` means the scan ran
off the end (the C++ leaves `ptr == dataSize` in that case). -/
def skipToChar (data : List Char) (ptr : Nat) (c : Char) (throwOnEol : Bool) :
    Except String (Option Nat) :=
  skipToCharAux c throwOnEol (data.drop ptr) ptr

/-- Core of `ML::antoi` as used by the parser (external `jml` helper): numeric
value of the leading decimal digits. -/
def antoiGo : List Char → Nat → Nat
  | [], acc => acc
  | c :: rest, acc => if c.isDigit then antoiGo rest (acc * 10 + (c.toNat - 48)) else acc

/-- `ML::antoi(begin, end)` on a character range (external `jml` helper):
parse the leading run of decimal digits. -/
def antoi (l : List Char) : Nat := antoiGo l 0

/-- Scanner core of the `skipChar` lambda of `handleHeader` (lines 334-338):
advance the absolute index past a run of the character `c`. -/
def skipCharsAux (c : Char) : List Char → Nat → Nat
  | [], i => i
  | x :: rest, i => if x = c then skipCharsAux c rest (i + 1) else i

/-- The `skipChar` lambda of `handleHeader` (lines 334-338), from index `ptr`. -/
def skipChars (data : List Char) (c : Char) (ptr : Nat) : Nat :=
  skipCharsAux c (data.drop ptr) ptr

/-- Scanner core of the `skipToChar` lambda of `handleHeader` (lines 325-333):
first absolute index holding `c`; when absent the index ends at `dataSize`. -/
def findFromAux (c : Char) : List Char → Nat → Nat
  | [], i => i
  | x :: rest, i => if x = c then i else findFromAux c rest (i + 1)

/-- The `skipToChar` lambda of `handleHeader` (lines 325-333), from `ptr`. -/
def findFrom (data : List Char) (c : Char) (ptr : Nat) : Nat :=
  findFromAux c (data.drop ptr) ptr

/-- Per-character comparison of `::strncasecmp` over `len = pat.length`
characters: the data must be at least as long as the pattern and agree with it
up to ASCII case. -/
def strncasecmpEq : List Char → List Char → Bool
  | _, [] => true
  | [], _ :: _ => false
  | a :: as, b :: bs => a.toLower = b.toLower && strncasecmpEq as bs

/-- The `matchString` lambda of `handleHeader` (lines 339-350) at index 0:
`dataSize >= len && strncasecmp(data, testString, len) == 0`. -/
def matchStringCI (data pat : List Char) : Bool :=
  strncasecmpEq data pat

/-- The characters of the `"Content-Length"` literal (line 352). -/
def clPat : List Char :=
  'C' :: 'o' :: 'n' :: 't' :: 'e' :: 'n' :: 't' :: '-' ::
  'L' :: 'e' :: 'n' :: 'g' :: 't' :: 'h' :: []

/-- Value-part extraction shared by the header recognizers: from the end of the
matched key (`keyLen`), skip spaces, skip to `':'`, step past it and skip
spaces (lines 352-357).  Returns the index where the value starts. -/
def headerValueStart (line : List Char) (keyLen : Nat) : Nat :=
  let p1 := skipChars line ' ' keyLen
  let p2 := findFrom line ':' p1
  skipChars line ' ' (p2 + 1)

/-- `HttpResponseParser::handleHeader` (lines 319-361) without its final
`onHeader` callback (which the caller `feed` accounts for): on a
case-insensitive `Content-Length` prefix, parse the value after the colon into
`remainingBody_`; otherwise leave it unchanged. -/
def handleHeader (line : List Char) (rb : Nat) : Nat :=
  if matchStringCI line clPat then
    antoi (line.drop (headerValueStart line clPat.length))
  else rb

/-- Outcome of one run of the header loop of `feed` (state 1, lines 248-302):
either the loop returns from `feed` (`ret` with the events, the final
`buffer_`, `state_` and `remainingBody_`), throws (`err`), or falls back to
the outer `while` (`cont` with the new `ptr`, `state_` and `remainingBody_`). -/
inductive HOut where
  | ret (evs : List Ev) (buf : List Char) (st : Stage) (rb : Nat)
  | err (evs : List Ev) (msg : String)
  | cont (evs : List Ev) (ptr : Nat) (st : Stage) (rb : Nat)
  deriving DecidableEq, Repr

theorem skipToCharAux_le {c : Char} {t : Bool} :
    ∀ {l : List Char} {i r : Nat}, skipToCharAux c t l i = .ok (some r) →
      i ≤ r ∧ r < i + l.length := by
  intro l
  induction l with
  | nil => intro i r h; simp [skipToCharAux] at h
  | cons x rest ih =>
    intro i r h
    rw [skipToCharAux] at h
    by_cases hx : x = c
    · rw [if_pos hx] at h
      cases h
      simp
    · rw [if_neg hx] at h
      by_cases he : t ∧ (x = '\r' ∨ x = '\n')
      · rw [if_pos he] at h; cases h
      · rw [if_neg he] at h
        have := ih h
        constructor
        · omega
        · simp only [List.length_cons]; omega

theorem skipToChar_bounds {data : List Char} {ptr : Nat} {c : Char} {t : Bool} {r : Nat}
    (h : skipToChar data ptr c t = .ok (some r)) : ptr ≤ r ∧ r < data.length ∨
      ptr ≤ r ∧ data.length ≤ ptr := by
  have hb := skipToCharAux_le h
  rw [List.length_drop] at hb
  omega

/-- The inner header loop of `feed` (state 1, lines 248-302), one recursive step
per header line, including the tail that ends the header section. -/
def headersLoop (data : List Char) (fromBuffer : Bool) (ptr rb : Nat) : HOut :=
  if hp : ptr < data.length then
    if data.get ⟨ptr, hp⟩ ≠ '\r' then
      -- lines 249-277: one "key: value" line
      match h1 : skipToChar data ptr ':' true with
      | .error e => .err [] e
      | .ok Option.none => .ret [] (data.drop ptr) .headers rb
      | .ok (some i) =>
        match h2 : skipToChar data i '\r' false with
        | .error e => .err [] e
        | .ok Option.none => .ret [] (data.drop ptr) .headers rb
        | .ok (some j) =>
          if hj : j + 1 < data.length then
            if data.get ⟨j + 1, hj⟩ ≠ '\n' then .err [] "expected \\n"
            else
              -- lines 269-270: handleHeader(data + headerPtr, ptr - headerPtr - 2)
              if j + 2 = data.length then
                .ret [Ev.header ((data.drop ptr).take (j - ptr))] []
                  .headers (handleHeader ((data.drop ptr).take (j - ptr)) rb)
              else
                match headersLoop data fromBuffer (j + 2)
                    (handleHeader ((data.drop ptr).take (j - ptr)) rb) with
                | .ret evs buf st r =>
                  .ret (Ev.header ((data.drop ptr).take (j - ptr)) :: evs) buf st r
                | .err evs e => .err (Ev.header ((data.drop ptr).take (j - ptr)) :: evs) e
                | .cont evs p st r =>
                  .cont (Ev.header ((data.drop ptr).take (j - ptr)) :: evs) p st r
          else
            -- line 259-265: '\n' not yet received; save from headerPtr onward
            .ret [] (data.drop ptr) .headers rb
    else
      -- lines 279-302: the empty line ending the header section
      if hq : ptr + 1 < data.length then
        if data.get ⟨ptr + 1, hq⟩ ≠ '\n' then .err [] "expected \\n"
        else
          if rb = 0 then
            if data.length = 0 then .ret [Ev.done] [] .statusLine rb
            else .cont [Ev.done] (ptr + 2) .statusLine rb
          else
            if data.length = 0 then .ret [] [] .body rb
            else .cont [] (ptr + 2) .body rb
      else
        -- lines 279-282: only the '\r' of the final line is present
        .ret [] (data.drop ptr) .headers rb
  else
    -- unreachable from `feed`: the outer loop guarantees ptr < dataSize
    .err [] "index out of bounds"
termination_by data.length - ptr
decreasing_by
  have hb1 := skipToChar_bounds h1
  have hb2 := skipToChar_bounds h2
  omega

theorem headersLoop_cont_lt {data : List Char} {f : Bool} :
    ∀ {n ptr rb evs p st r}, data.length - ptr ≤ n →
      headersLoop data f ptr rb = .cont evs p st r → ptr < p := by
  intro n
  induction n with
  | zero =>
    intro ptr rb evs p st r hn h
    rw [headersLoop] at h
    rw [dif_neg (by omega)] at h
    cases h
  | succ m ih =>
    intro ptr rb evs p st r hn h
    rw [headersLoop] at h
    split at h
    case isFalse => cases h
    case isTrue hp =>
      split at h
      case isFalse =>
        -- header-section-ending line
        split at h
        case isFalse => cases h
        case isTrue hq =>
          split at h
          · cases h
          · split at h <;> split at h <;> cases h <;> omega
      case isTrue hr =>
        split at h
        case h_1 => cases h
        case h_2 => cases h
        case h_3 i h1 =>
          split at h
          case h_1 => cases h
          case h_2 => cases h
          case h_3 j h2 =>
            have hb1 := skipToChar_bounds h1
            have hb2 := skipToChar_bounds h2
            split at h
            case isFalse => cases h
            case isTrue hj =>
              split at h
              case isTrue => cases h
              case isFalse =>
                split at h
                case isTrue => cases h
                case isFalse hend =>
                  cases h3 : headersLoop data f (j + 2)
                      (handleHeader ((data.drop ptr).take (j - ptr)) rb) with
                  | ret evs' buf' st' r' => rw [h3] at h; cases h
                  | err evs' e' => rw [h3] at h; cases h
                  | cont evs' p' st' r' =>
                    rw [h3] at h
                    injection h with h4 h5 h6 h7
                    have hlt : j + 2 < p' := ih (by omega) h3
                    omega

/-- The characters of the `"HTTP/"` literal tested at line 204. -/
def httpSlash : List Char := 'H' :: 'T' :: 'T' :: 'P' :: '/' :: []

/-- Rank used by the termination measure of `loop`: the body stage can hand
control back to the status-line stage without consuming input (when
`remainingBody_` is zero), every other step consumes input. -/
def stageRank : Stage → Nat
  | .body => 1
  | _ => 0

/-- The outer `while (true)` loop of `HttpResponseParser::feed` (lines 185-316).
Each return site records the resulting events, final `buffer_`, `state_` and
`remainingBody_`; a thrown `ML::Exception` is an `.error` carrying the events
emitted before the throw.  The C++ tests `ptr == dataSize` at the loop head;
`ptr` never exceeds `dataSize`, so `≤` is used to make totality evident. -/
def loop (data : List Char) (fromBuffer : Bool) (ptr : Nat) (stage : Stage) (rb : Nat) :
    List Ev × Except String St :=
  if data.length ≤ ptr then
    ([], .ok ⟨stage, [], rb⟩)
  else
    match stage with
    | .statusLine =>
      -- lines 192-247
      if data.length - ptr < 16 then
        ([], .ok ⟨.statusLine, if fromBuffer then data else data.drop ptr, rb⟩)
      else if (data.drop ptr).take 5 ≠ httpSlash then
        ([], .error "version must start with 'HTTP/'")
      else
        match h0 : skipToChar data (ptr + 5) ' ' true with
        | .error e => ([], .error e)
        | .ok Option.none => ([], .error "version too long")
        | .ok (some versionEnd) =>
          match h1 : skipToChar data (versionEnd + 1) ' ' true with
          | .error e => ([], .error e)
          | .ok Option.none => ([], .error "code too long")
          | .ok (some codeEnd) =>
            match h2 : skipToChar data codeEnd '\r' false with
            | .error e => ([], .error e)
            | .ok Option.none =>
              -- lines 226-231: the failed scan advanced ptr to dataSize, so
              -- with !fromBuffer the assigned suffix is empty; the read bytes
              -- are lost
              ([], .ok ⟨.statusLine, if fromBuffer then data else [], rb⟩)
            | .ok (some cr) =>
              if hcr : cr + 1 < data.length then
                if data.get ⟨cr + 1, hcr⟩ ≠ '\n' then ([], .error "expected \\n")
                else
                  if cr + 2 = data.length then
                    ([Ev.start (data.take versionEnd)
                        (antoi ((data.drop (versionEnd + 1)).take (codeEnd - (versionEnd + 1))))],
                      .ok ⟨.headers, [], rb⟩)
                  else
                    (Ev.start (data.take versionEnd)
                        (antoi ((data.drop (versionEnd + 1)).take (codeEnd - (versionEnd + 1))))
                      :: (loop data fromBuffer (cr + 2) .headers rb).1,
                      (loop data fromBuffer (cr + 2) .headers rb).2)
              else
                -- lines 232-235: ptr reached dataSize right after '\r';
                -- nothing is saved and with !fromBuffer the bytes are lost
                ([], .ok ⟨.statusLine, if fromBuffer then data else [], rb⟩)
    | .headers =>
      match h3 : headersLoop data fromBuffer ptr rb with
      | .ret evs buf st r => (evs, .ok ⟨st, buf, r⟩)
      | .err evs e => (evs, .error e)
      | .cont evs ptr' st r =>
        (evs ++ (loop data fromBuffer ptr' st r).1, (loop data fromBuffer ptr' st r).2)
    | .body =>
      -- lines 304-315
      if rb - min (data.length - ptr) rb = 0 then
        (Ev.data ((data.drop ptr).take (min (data.length - ptr) rb)) :: Ev.done ::
            (loop data fromBuffer (ptr + min (data.length - ptr) rb) .statusLine
              (rb - min (data.length - ptr) rb)).1,
          (loop data fromBuffer (ptr + min (data.length - ptr) rb) .statusLine
            (rb - min (data.length - ptr) rb)).2)
      else
        (Ev.data ((data.drop ptr).take (min (data.length - ptr) rb)) ::
            (loop data fromBuffer (ptr + min (data.length - ptr) rb) .body
              (rb - min (data.length - ptr) rb)).1,
          (loop data fromBuffer (ptr + min (data.length - ptr) rb) .body
            (rb - min (data.length - ptr) rb)).2)
termination_by (data.length - ptr) * 2 + stageRank stage
decreasing_by
  all_goals simp only [stageRank]
  all_goals first
    | omega
    | (have hb0 := skipToChar_bounds h0
       have hb1 := skipToChar_bounds h1
       have hb2 := skipToChar_bounds h2
       omega)
    | (have hcl := headersLoop_cont_lt (Nat.le_refl _) h3
       rcases st with _ | _ | _ <;> simp [stageRank] <;> omega)

/-- `HttpResponseParser::feed(data, size)` (lines 142-317): prepend the
carry-over buffer when non-empty and run the parsing loop from index 0. -/
def feed (st : St) (input : List Char) : List Ev × Except String St :=
  if st.buffer_ ≠ [] then
    loop (st.buffer_ ++ input) true 0 st.state_ st.remainingBody_
  else
    loop input false 0 st.state_ st.remainingBody_

/-- Feed a sequence of chunks in order, concatenating the emitted callback
events; an exception thrown by one `feed` aborts the sequence. -/
def feedSeq (st : St) : List (List Char) → List Ev × Except String St
  | [] => ([], .ok st)
  | chunk :: rest =>
    match feed st chunk with
    | (evs, .ok st') =>
      let r := feedSeq st' rest
      (evs ++ r.1, r.2)
    | (evs, .error e) => (evs, .error e)

/-- The bytes passed to `onData`, concatenated in order. -/
def dataBytes (evs : List Ev) : List Char :=
  (evs.filterMap fun e => match e with | .data b => some b | _ => none).flatten

/-- The number of `onDone` callbacks in an event list. -/
def doneCount (evs : List Ev) : Nat :=
  (evs.filter fun e => match e with | .done => true | _ => false).length

/-- Prepend a callback event to the events of a header-loop outcome. -/
def HOut.consEv (e : Ev) : HOut → HOut
  | .ret evs buf st r => .ret (e :: evs) buf st r
  | .err evs m => .err (e :: evs) m
  | .cont evs p st r => .cont (e :: evs) p st r

theorem take_len_append {α : Type} : ∀ (u w : List α) (m : Nat),
    (u ++ w).take (u.length + m) = u ++ w.take m := by
  intro u
  induction u with
  | nil => intro w m; simp
  | cons x xs ih =>
    intro w m
    simp only [List.cons_append, List.length_cons, List.take]
    rw [Nat.succ_add]
    simp [ih]

theorem get_len_append {α : Type} (u w : List α) (i : Nat) (h' : i < w.length)
    (h : u.length + i < (u ++ w).length) :
    (u ++ w).get ⟨u.length + i, h⟩ = w.get ⟨i, h'⟩ := by
  simp [List.get_eq_getElem, List.getElem_append_right (Nat.le_add_right u.length i)]

theorem skipToCharAux_eval {c : Char} {t : Bool} :
    ∀ (u w : List Char) (i : Nat),
      (∀ x ∈ u, x ≠ c ∧ ¬(t = true ∧ (x = '\r' ∨ x = '\n'))) →
      skipToCharAux c t (u ++ c :: w) i = .ok (some (i + u.length)) := by
  intro u
  induction u with
  | nil =>
    intro w i _
    simp [skipToCharAux]
  | cons x xs ih =>
    intro w i hu
    have hx := hu x (by simp)
    rw [List.cons_append, skipToCharAux, if_neg hx.1, if_neg (by
      intro hc
      exact hx.2 ⟨(by simpa using hc.1), hc.2⟩)]
    rw [ih w (i + 1) (fun y hy => hu y (by simp [hy]))]
    simp
    omega

theorem skipToChar_eval {c : Char} {t : Bool} (v u w : List Char)
    (hu : ∀ x ∈ u, x ≠ c ∧ ¬(t = true ∧ (x = '\r' ∨ x = '\n'))) :
    skipToChar (v ++ u ++ c :: w) v.length c t = .ok (some (v.length + u.length)) := by
  rw [skipToChar, List.append_assoc, List.drop_left]
  exact skipToCharAux_eval u w v.length hu

theorem skipChars_stop {c : Char} (v : List Char) {x : Char} (w : List Char)
    (hx : x ≠ c) : skipChars (v ++ x :: w) c v.length = v.length := by
  rw [skipChars, List.drop_left, skipCharsAux, if_neg hx]

theorem skipChars_one {c : Char} (v : List Char) {x : Char} (w : List Char)
    (hx : x ≠ c) : skipChars (v ++ c :: x :: w) c v.length = v.length + 1 := by
  rw [skipChars, List.drop_left, skipCharsAux, if_pos rfl, skipCharsAux, if_neg hx]

theorem findFrom_here {c : Char} (v w : List Char) :
    findFrom (v ++ c :: w) c v.length = v.length := by
  rw [findFrom, List.drop_left, findFromAux, if_pos rfl]

theorem strncasecmpEq_true : ∀ (p u w : List Char),
    u.map Char.toLower = p.map Char.toLower →
    strncasecmpEq (u ++ w) p = true := by
  intro p
  induction p with
  | nil => intro u w _; cases u ++ w <;> simp [strncasecmpEq]
  | cons b bs ih =>
    intro u w hu
    cases u with
    | nil => simp at hu
    | cons a as =>
      simp only [List.map_cons, List.cons.injEq] at hu
      rw [List.cons_append, strncasecmpEq]
      rw [ih as w hu.2]
      simp [hu.1]

theorem strncasecmpEq_iff : ∀ (p d : List Char),
    strncasecmpEq d p = true ↔
      p.length ≤ d.length ∧ (d.take p.length).map Char.toLower = p.map Char.toLower := by
  intro p
  induction p with
  | nil => intro d; cases d <;> simp [strncasecmpEq]
  | cons b bs ih =>
    intro d
    cases d with
    | nil => simp [strncasecmpEq]
    | cons a as =>
      rw [strncasecmpEq]
      simp only [Bool.and_eq_true, decide_eq_true_eq, List.length_cons, List.take,
        List.map_cons, List.cons.injEq]
      rw [ih as]
      constructor
      · rintro ⟨h1, h2, h3⟩
        exact ⟨by omega, h1, h3⟩
      · rintro ⟨h1, h2, h3⟩
        exact ⟨h2, by omega, h3⟩

/-- The lowercase characters of `"content-length"`. -/
def clLower : List Char :=
  'c' :: 'o' :: 'n' :: 't' :: 'e' :: 'n' :: 't' :: '-' ::
  'l' :: 'e' :: 'n' :: 'g' :: 't' :: 'h' :: []

theorem digit_ne_special {x : Char} (h : x.isDigit = true) :
    x ≠ '\r' ∧ x ≠ '\n' ∧ x ≠ ' ' ∧ x ≠ ':' := by
  simp only [Char.isDigit, decide_eq_true_eq, Bool.and_eq_true] at h
  refine ⟨?_, ?_, ?_, ?_⟩ <;> rintro rfl <;> simp_all [Char.le_def]

theorem loop_past_end {data : List Char} {fb : Bool} {ptr : Nat} {st : Stage} {rb : Nat}
    (h : data.length ≤ ptr) : loop data fb ptr st rb = ([], .ok ⟨st, [], rb⟩) := by
  rw [loop.eq_def, if_pos h]

theorem loop_eq_statusLine {data : List Char} {fb : Bool} {ptr : Nat} {rb : Nat}
    (hl : ¬(data.length ≤ ptr)) :
    loop data fb ptr .statusLine rb =
      (if data.length - ptr < 16 then
        ([], .ok ⟨.statusLine, if fb then data else data.drop ptr, rb⟩)
      else if (data.drop ptr).take 5 ≠ httpSlash then
        ([], .error "version must start with 'HTTP/'")
      else
        match h0 : skipToChar data (ptr + 5) ' ' true with
        | .error e => ([], .error e)
        | .ok Option.none => ([], .error "version too long")
        | .ok (some versionEnd) =>
          match h1 : skipToChar data (versionEnd + 1) ' ' true with
          | .error e => ([], .error e)
          | .ok Option.none => ([], .error "code too long")
          | .ok (some codeEnd) =>
            match h2 : skipToChar data codeEnd '\r' false with
            | .error e => ([], .error e)
            | .ok Option.none =>
              ([], .ok ⟨.statusLine, if fb then data else [], rb⟩)
            | .ok (some cr) =>
              if hcr : cr + 1 < data.length then
                if data.get ⟨cr + 1, hcr⟩ ≠ '\n' then ([], .error "expected \\n")
                else
                  if cr + 2 = data.length then
                    ([Ev.start (data.take versionEnd)
                        (antoi ((data.drop (versionEnd + 1)).take (codeEnd - (versionEnd + 1))))],
                      .ok ⟨.headers, [], rb⟩)
                  else
                    (Ev.start (data.take versionEnd)
                        (antoi ((data.drop (versionEnd + 1)).take (codeEnd - (versionEnd + 1))))
                      :: (loop data fb (cr + 2) .headers rb).1,
                      (loop data fb (cr + 2) .headers rb).2)
              else
                ([], .ok ⟨.statusLine, if fb then data else [], rb⟩)) := by
  rw [loop.eq_def, if_neg hl]

theorem loop_eq_headers {data : List Char} {fb : Bool} {ptr : Nat} {rb : Nat}
    (hl : ¬(data.length ≤ ptr)) :
    loop data fb ptr .headers rb =
      (match h3 : headersLoop data fb ptr rb with
      | .ret evs buf st r => (evs, .ok ⟨st, buf, r⟩)
      | .err evs e => (evs, .error e)
      | .cont evs ptr' st r =>
        (evs ++ (loop data fb ptr' st r).1, (loop data fb ptr' st r).2)) := by
  rw [loop.eq_def, if_neg hl]

theorem loop_eq_body {data : List Char} {fb : Bool} {ptr : Nat} {rb : Nat}
    (hl : ¬(data.length ≤ ptr)) :
    loop data fb ptr .body rb =
      (if rb - min (data.length - ptr) rb = 0 then
        (Ev.data ((data.drop ptr).take (min (data.length - ptr) rb)) :: Ev.done ::
            (loop data fb (ptr + min (data.length - ptr) rb) .statusLine
              (rb - min (data.length - ptr) rb)).1,
          (loop data fb (ptr + min (data.length - ptr) rb) .statusLine
            (rb - min (data.length - ptr) rb)).2)
      else
        (Ev.data ((data.drop ptr).take (min (data.length - ptr) rb)) ::
            (loop data fb (ptr + min (data.length - ptr) rb) .body
              (rb - min (data.length - ptr) rb)).1,
          (loop data fb (ptr + min (data.length - ptr) rb) .body
            (rb - min (data.length - ptr) rb)).2)) := by
  rw [loop.eq_def, if_neg hl]

theorem loop_status_main {data : List Char} {fb : Bool} {ptr : Nat} {rb : Nat}
    {ve ce cr : Nat}
    (h1 : ptr < data.length) (h2 : ¬(data.length - ptr < 16))
    (h3 : (data.drop ptr).take 5 = httpSlash)
    (h4 : skipToChar data (ptr + 5) ' ' true = .ok (some ve))
    (h5 : skipToChar data (ve + 1) ' ' true = .ok (some ce))
    (h6 : skipToChar data ce '\r' false = .ok (some cr))
    (h7 : cr + 1 < data.length)
    (h8 : data.get ⟨cr + 1, h7⟩ = '\n') :
    loop data fb ptr .statusLine rb =
      if cr + 2 = data.length then
        ([Ev.start (data.take ve)
            (antoi ((data.drop (ve + 1)).take (ce - (ve + 1))))], .ok ⟨.headers, [], rb⟩)
      else
        (Ev.start (data.take ve) (antoi ((data.drop (ve + 1)).take (ce - (ve + 1))))
            :: (loop data fb (cr + 2) .headers rb).1,
          (loop data fb (cr + 2) .headers rb).2) := by
  rw [loop_eq_statusLine (by omega)]
  rw [if_neg h2, if_neg (by rw [h3]; exact fun hc => hc rfl)]
  split
  case h_1 heq => simp [h4] at heq
  case h_2 heq => simp [h4] at heq
  case h_3 ve' heq =>
    rw [h4] at heq
    injection heq with heq'
    injection heq' with heq2
    subst heq2
    split
    case h_1 heq => simp [h5] at heq
    case h_2 heq => simp [h5] at heq
    case h_3 ce' heq =>
      rw [h5] at heq
      injection heq with heq'
      injection heq' with heq2
      subst heq2
      split
      case h_1 heq => simp [h6] at heq
      case h_2 heq => simp [h6] at heq
      case h_3 cr' heq =>
        rw [h6] at heq
        injection heq with heq'
        injection heq' with heq2
        subst heq2
        rw [dif_pos h7, if_neg (by rw [h8]; exact fun hc => hc rfl)]

theorem loop_headers_ret {data : List Char} {fb : Bool} {ptr : Nat} {rb : Nat}
    {evs : List Ev} {buf : List Char} {st : Stage} {r : Nat}
    (h1 : ¬(data.length ≤ ptr))
    (h : headersLoop data fb ptr rb = .ret evs buf st r) :
    loop data fb ptr .headers rb = (evs, .ok ⟨st, buf, r⟩) := by
  rw [loop_eq_headers h1]
  split
  case h_1 heq => rw [h] at heq; cases heq; rfl
  case h_2 heq => rw [h] at heq; cases heq
  case h_3 heq => rw [h] at heq; cases heq

theorem loop_headers_err {data : List Char} {fb : Bool} {ptr : Nat} {rb : Nat}
    {evs : List Ev} {e : String}
    (h1 : ¬(data.length ≤ ptr))
    (h : headersLoop data fb ptr rb = .err evs e) :
    loop data fb ptr .headers rb = (evs, .error e) := by
  rw [loop_eq_headers h1]
  split
  case h_1 heq => rw [h] at heq; cases heq
  case h_2 heq => rw [h] at heq; cases heq; rfl
  case h_3 heq => rw [h] at heq; cases heq

theorem loop_headers_cont {data : List Char} {fb : Bool} {ptr : Nat} {rb : Nat}
    {evs : List Ev} {p : Nat} {st : Stage} {r : Nat}
    (h1 : ¬(data.length ≤ ptr))
    (h : headersLoop data fb ptr rb = .cont evs p st r) :
    loop data fb ptr .headers rb =
      (evs ++ (loop data fb p st r).1, (loop data fb p st r).2) := by
  rw [loop_eq_headers h1]
  split
  case h_1 heq => rw [h] at heq; cases heq
  case h_2 heq => rw [h] at heq; cases heq
  case h_3 heq => rw [h] at heq; cases heq; rfl

theorem headersLoop_line {data : List Char} {fb : Bool} {ptr : Nat} {rb : Nat}
    {i j : Nat}
    (hp : ptr < data.length)
    (hr : data.get ⟨ptr, hp⟩ ≠ '\r')
    (h1 : skipToChar data ptr ':' true = .ok (some i))
    (h2 : skipToChar data i '\r' false = .ok (some j))
    (hj : j + 1 < data.length)
    (hn : data.get ⟨j + 1, hj⟩ = '\n')
    (hend : ¬(j + 2 = data.length)) :
    headersLoop data fb ptr rb =
      (headersLoop data fb (j + 2)
        (handleHeader ((data.drop ptr).take (j - ptr)) rb)).consEv
          (Ev.header ((data.drop ptr).take (j - ptr))) := by
  rw [headersLoop.eq_def, dif_pos hp, if_pos hr]
  split
  case h_1 heq => simp [h1] at heq
  case h_2 heq => simp [h1] at heq
  case h_3 i' heq =>
    rw [h1] at heq
    injection heq with heq'
    injection heq' with heq2
    subst heq2
    split
    case h_1 heq => simp [h2] at heq
    case h_2 heq => simp [h2] at heq
    case h_3 j' heq =>
      rw [h2] at heq
      injection heq with heq'
      injection heq' with heq2
      subst heq2
      rw [dif_pos hj, if_neg (by rw [hn]; exact fun hc => hc rfl), if_neg hend]
      cases headersLoop data fb (j + 2) (handleHeader ((data.drop ptr).take (j - ptr)) rb) <;>
        rfl

theorem headersLoop_last_line {data : List Char} {fb : Bool} {ptr : Nat} {rb : Nat}
    {i j : Nat}
    (hp : ptr < data.length)
    (hr : data.get ⟨ptr, hp⟩ ≠ '\r')
    (h1 : skipToChar data ptr ':' true = .ok (some i))
    (h2 : skipToChar data i '\r' false = .ok (some j))
    (hj : j + 1 < data.length)
    (hn : data.get ⟨j + 1, hj⟩ = '\n')
    (hend : j + 2 = data.length) :
    headersLoop data fb ptr rb =
      .ret [Ev.header ((data.drop ptr).take (j - ptr))] []
        .headers (handleHeader ((data.drop ptr).take (j - ptr)) rb) := by
  rw [headersLoop.eq_def, dif_pos hp, if_pos hr]
  split
  case h_1 heq => simp [h1] at heq
  case h_2 heq => simp [h1] at heq
  case h_3 i' heq =>
    rw [h1] at heq
    injection heq with heq'
    injection heq' with heq2
    subst heq2
    split
    case h_1 heq => simp [h2] at heq
    case h_2 heq => simp [h2] at heq
    case h_3 j' heq =>
      rw [h2] at heq
      injection heq with heq'
      injection heq' with heq2
      subst heq2
      rw [dif_pos hj, if_neg (by rw [hn]; exact fun hc => hc rfl), if_pos hend]

theorem headersLoop_exit {data : List Char} {fb : Bool} {ptr : Nat} {rb : Nat}
    (hp : ptr < data.length)
    (hr : data.get ⟨ptr, hp⟩ = '\r')
    (hq : ptr + 1 < data.length)
    (hn : data.get ⟨ptr + 1, hq⟩ = '\n') :
    headersLoop data fb ptr rb =
      if rb = 0 then .cont [Ev.done] (ptr + 2) .statusLine rb
      else .cont [] (ptr + 2) .body rb := by
  rw [headersLoop.eq_def, dif_pos hp, if_neg (by rw [hr]; exact fun hc => hc rfl)]
  rw [dif_pos hq, if_neg (by rw [hn]; exact fun hc => hc rfl)]
  have hz : ¬(data.length = 0) := by omega
  by_cases hrb : rb = 0
  · rw [if_pos hrb, if_neg hz, if_pos hrb]
  · rw [if_neg hrb, if_neg hz, if_neg hrb]

theorem loop_status_notHttp {data : List Char} {fb : Bool} {ptr : Nat} {rb : Nat}
    (h1 : ptr < data.length) (h2 : ¬(data.length - ptr < 16))
    (h3 : (data.drop ptr).take 5 ≠ httpSlash) :
    loop data fb ptr .statusLine rb = ([], .error "version must start with 'HTTP/'") := by
  rw [loop_eq_statusLine (by omega), if_neg h2, if_pos h3]

theorem loop_status_lost {data : List Char} {fb : Bool} {ptr : Nat} {rb : Nat}
    {ve ce cr : Nat}
    (h1 : ptr < data.length) (h2 : ¬(data.length - ptr < 16))
    (h3 : (data.drop ptr).take 5 = httpSlash)
    (h4 : skipToChar data (ptr + 5) ' ' true = .ok (some ve))
    (h5 : skipToChar data (ve + 1) ' ' true = .ok (some ce))
    (h6 : skipToChar data ce '\r' false = .ok (some cr))
    (h7 : ¬(cr + 1 < data.length)) :
    loop data fb ptr .statusLine rb =
      ([], .ok ⟨.statusLine, if fb then data else [], rb⟩) := by
  rw [loop_eq_statusLine (by omega)]
  rw [if_neg h2, if_neg (by rw [h3]; exact fun hc => hc rfl)]
  split
  case h_1 heq => simp [h4] at heq
  case h_2 heq => simp [h4] at heq
  case h_3 ve' heq =>
    rw [h4] at heq
    injection heq with heq'
    injection heq' with heq2
    subst heq2
    split
    case h_1 heq => simp [h5] at heq
    case h_2 heq => simp [h5] at heq
    case h_3 ce' heq =>
      rw [h5] at heq
      injection heq with heq'
      injection heq' with heq2
      subst heq2
      split
      case h_1 heq => simp [h6] at heq
      case h_2 heq => simp [h6] at heq
      case h_3 cr' heq =>
        rw [h6] at heq
        injection heq with heq'
        injection heq' with heq2
        subst heq2
        rw [dif_neg h7]

theorem loop_status_badLF {data : List Char} {fb : Bool} {ptr : Nat} {rb : Nat}
    {ve ce cr : Nat}
    (h1 : ptr < data.length) (h2 : ¬(data.length - ptr < 16))
    (h3 : (data.drop ptr).take 5 = httpSlash)
    (h4 : skipToChar data (ptr + 5) ' ' true = .ok (some ve))
    (h5 : skipToChar data (ve + 1) ' ' true = .ok (some ce))
    (h6 : skipToChar data ce '\r' false = .ok (some cr))
    (h7 : cr + 1 < data.length)
    (h8 : data.get ⟨cr + 1, h7⟩ ≠ '\n') :
    loop data fb ptr .statusLine rb = ([], .error "expected \\n") := by
  rw [loop_eq_statusLine (by omega)]
  rw [if_neg h2, if_neg (by rw [h3]; exact fun hc => hc rfl)]
  split
  case h_1 heq => simp [h4] at heq
  case h_2 heq => simp [h4] at heq
  case h_3 ve' heq =>
    rw [h4] at heq
    injection heq with heq'
    injection heq' with heq2
    subst heq2
    split
    case h_1 heq => simp [h5] at heq
    case h_2 heq => simp [h5] at heq
    case h_3 ce' heq =>
      rw [h5] at heq
      injection heq with heq'
      injection heq' with heq2
      subst heq2
      split
      case h_1 heq => simp [h6] at heq
      case h_2 heq => simp [h6] at heq
      case h_3 cr' heq =>
        rw [h6] at heq
        injection heq with heq'
        injection heq' with heq2
        subst heq2
        rw [dif_pos h7, if_pos h8]

/-- The characters of `"HTTP/1.1 200 OK"` (the status line sans CRLF). -/
def sl15 : List Char :=
  'H' :: 'T' :: 'T' :: 'P' :: '/' :: '1' :: '.' :: '1' :: ' ' ::
  '2' :: '0' :: '0' :: ' ' :: 'O' :: 'K' :: []

/-- The characters of `"HTTP/1.1 200 OK\r\n"`. -/
def sl17 : List Char := sl15 ++ '\r' :: '\n' :: []

/-- The characters of `"HTTP/1.1"`. -/
def ver8 : List Char := 'H' :: 'T' :: 'T' :: 'P' :: '/' :: '1' :: '.' :: '1' :: []

/-- The characters of `"Content-Length: "` (key, colon and one space). -/
def clKey16 : List Char := clPat ++ ':' :: ' ' :: []

theorem drop_concat {α : Type} (v w : List α) (n : Nat) (hn : n = v.length) :
    (v ++ w).drop n = w := by
  subst hn
  exact List.drop_left v w

theorem take_concat {α : Type} (v w : List α) (n m : Nat) (hn : n = v.length + m) :
    (v ++ w).take n = v ++ w.take m := by
  subst hn
  exact take_len_append v w m

theorem get_concat {α : Type} (v : List α) (x : α) (w : List α) (n : Nat)
    (hn : n = v.length) (h : n < (v ++ x :: w).length) :
    (v ++ x :: w).get ⟨n, h⟩ = x := by
  subst hn
  have h' : (0 : Nat) < (x :: w).length := by simp
  have := get_len_append v (x :: w) 0 h' (by simpa using h)
  simpa using this

theorem handleHeader_cl (key ds : List Char) (rb : Nat)
    (hk : key.map Char.toLower = clLower)
    (hds : ∀ c ∈ ds, c.isDigit = true) (hne : ds ≠ []) :
    handleHeader (key ++ ':' :: ' ' :: ds) rb = antoi ds := by
  have hklen : key.length = 14 := by
    have := congrArg List.length hk
    simpa [clLower] using this
  have hmatch : matchStringCI (key ++ ':' :: ' ' :: ds) clPat = true := by
    rw [matchStringCI]
    exact strncasecmpEq_true clPat key (':' :: ' ' :: ds) (by rw [hk]; decide)
  rw [handleHeader, if_pos hmatch]
  have hlen14 : clPat.length = 14 := by decide
  obtain ⟨d0, ds', rfl⟩ : ∃ d0 ds', ds = d0 :: ds' := by
    cases ds with
    | nil => exact absurd rfl hne
    | cons d0 ds' => exact ⟨d0, ds', rfl⟩
  have hd0 : d0 ≠ ' ' := (digit_ne_special (hds d0 (by simp))).2.2.1
  have hstep : headerValueStart (key ++ ':' :: ' ' :: d0 :: ds') clPat.length
      = key.length + 2 := by
    rw [headerValueStart, hlen14, ← hklen]
    rw [skipChars_stop key (' ' :: d0 :: ds') (by decide)]
    rw [findFrom_here key (' ' :: d0 :: ds')]
    have : key ++ ':' :: ' ' :: d0 :: ds' = (key ++ [':']) ++ ' ' :: d0 :: ds' := by simp
    rw [this]
    have hl : key.length + 1 = (key ++ [':']).length := by simp
    rw [hl, skipChars_one (key ++ [':']) ds' hd0]
    simp
  rw [hstep]
  have : key ++ ':' :: ' ' :: d0 :: ds' = (key ++ [':', ' ']) ++ d0 :: ds' := by simp
  rw [this]
  have hl2 : key.length + 2 = (key ++ [':', ' ']).length := by simp
  rw [hl2, List.drop_left]


/-- The characters of `"ontent-Length: "` (the Content-Length key after its
first letter, with colon and space). -/
def clTail15 : List Char :=
  'o' :: 'n' :: 't' :: 'e' :: 'n' :: 't' :: '-' ::
  'L' :: 'e' :: 'n' :: 'g' :: 't' :: 'h' :: ':' :: ' ' :: []

/-- The `"\r\n\r\n"` separator followed by the body. -/
def tail4 (body : List Char) : List Char := '\r' :: '\n' :: '\r' :: '\n' :: body

theorem get_eq_of_eq {α : Type} {l l' : List α} (h : l = l') {n : Nat}
    (hn : n < l.length) : l.get ⟨n, hn⟩ = l'.get ⟨n, h ▸ hn⟩ := by
  subst h
  rfl

theorem loop_headers_cl_eval (ds body : List Char)
    (hds : ∀ c ∈ ds, c.isDigit = true) (hne : ds ≠ [])
    (hlen : body.length = antoi ds) (hbody : body ≠ []) :
    loop (sl17 ++ (clKey16 ++ (ds ++ tail4 body))) false 17 .headers 0 =
      ([Ev.header (clKey16 ++ ds), Ev.data body, Ev.done], .ok initSt) := by
  set D := sl17 ++ (clKey16 ++ (ds ++ tail4 body)) with hD
  have hlenD : D.length = 37 + ds.length + body.length := by
    rw [hD]
    simp only [sl17, sl15, clKey16, clPat, tail4, List.length_append, List.length_cons,
      List.length_nil]
    omega
  have hbpos : 0 < body.length := List.length_pos.mpr hbody
  have hrbpos : 0 < antoi ds := by omega
  have hpD : (17 : Nat) < D.length := by omega
  -- decompositions of D around the interesting indices
  have e0 : D = (sl17 ++ clPat) ++ (':' :: ' ' :: (ds ++ tail4 body)) := by
    rw [hD]
    simp only [clKey16, List.append_assoc, List.cons_append, List.nil_append]
  have e1 : D = ((sl17 ++ clPat) ++ (':' :: ' ' :: ds)) ++
      ('\r' :: ('\n' :: '\r' :: '\n' :: body)) := by
    rw [hD]
    simp only [clKey16, tail4, List.append_assoc, List.cons_append, List.nil_append]
  have e2 : D = sl17 ++ ('C' :: (clTail15 ++ (ds ++ tail4 body))) := by
    rw [hD]
    simp only [clKey16, clPat, clTail15, List.append_assoc, List.cons_append,
      List.nil_append]
  have e3 : D = (((sl17 ++ clPat) ++ (':' :: ' ' :: ds)) ++ ['\r']) ++
      ('\n' :: ('\r' :: '\n' :: body)) := by
    rw [hD]
    simp only [clKey16, tail4, List.append_assoc, List.cons_append, List.nil_append]
  have e4 : D = ((((sl17 ++ clPat) ++ (':' :: ' ' :: ds)) ++ ['\r', '\n'])) ++
      ('\r' :: ('\n' :: body)) := by
    rw [hD]
    simp only [clKey16, tail4, List.append_assoc, List.cons_append, List.nil_append]
  have e5 : D = ((((sl17 ++ clPat) ++ (':' :: ' ' :: ds)) ++ ['\r', '\n', '\r'])) ++
      ('\n' :: body) := by
    rw [hD]
    simp only [clKey16, tail4, List.append_assoc, List.cons_append, List.nil_append]
  have e6 : D = ((((sl17 ++ clPat) ++ (':' :: ' ' :: ds)) ++ ['\r', '\n', '\r', '\n'])) ++
      body := by
    rw [hD]
    simp only [clKey16, tail4, List.append_assoc, List.cons_append, List.nil_append]
  -- scans
  have h1 : skipToChar D 17 ':' true = .ok (some 31) := by
    have h := skipToChar_eval (c := ':') (t := true) sl17 clPat
      (' ' :: (ds ++ tail4 body)) (by decide)
    rw [← e0] at h
    have hL1 : sl17.length = 17 := by decide
    have hL2 : clPat.length = 14 := by decide
    rw [hL1, hL2] at h
    exact h
  have hu2 : ∀ x ∈ ':' :: ' ' :: ds, x ≠ '\r' ∧ ¬(false = true ∧ (x = '\r' ∨ x = '\n')) := by
    intro x hx
    simp only [List.mem_cons] at hx
    rcases hx with rfl | rfl | hx
    · exact ⟨by decide, by simp⟩
    · exact ⟨by decide, by simp⟩
    · exact ⟨(digit_ne_special (hds x hx)).1, by simp⟩
  have h2 : skipToChar D 31 '\r' false = .ok (some (33 + ds.length)) := by
    have h := skipToChar_eval (sl17 ++ clPat) (':' :: ' ' :: ds)
      ('\n' :: '\r' :: '\n' :: body) hu2
    rw [← e1] at h
    have hL1 : (sl17 ++ clPat).length = 31 := by decide
    have hL2 : (':' :: ' ' :: ds).length = 2 + ds.length := by
      simp only [List.length_cons]
      omega
    rw [hL1, hL2] at h
    have harith : 31 + (2 + ds.length) = 33 + ds.length := by omega
    rw [harith] at h
    exact h
  -- characters at the line boundaries
  have hg17 : D.get ⟨17, hpD⟩ = 'C' := by
    rw [get_eq_of_eq e2 hpD]
    exact get_concat sl17 'C' _ 17 (by decide) _
  have hj1 : 33 + ds.length + 1 < D.length := by omega
  have hgLF1 : D.get ⟨33 + ds.length + 1, hj1⟩ = '\n' := by
    rw [get_eq_of_eq e3 hj1]
    refine get_concat _ '\n' _ _ ?_ _
    simp only [sl17, sl15, clPat, List.length_append, List.length_cons, List.length_nil]
    omega
  -- first header line processed
  have hdr1 : headersLoop D false 17 0 =
      (headersLoop D false (33 + ds.length + 2) (antoi ds)).consEv
        (Ev.header (clKey16 ++ ds)) := by
    have hline : (D.drop 17).take (33 + ds.length - 17) = clKey16 ++ ds := by
      have hdrop : D.drop 17 = clKey16 ++ (ds ++ tail4 body) := by
        rw [hD]
        exact drop_concat sl17 _ 17 (by decide)
      rw [hdrop]
      have harith : 33 + ds.length - 17 = 16 + ds.length := by omega
      rw [harith]
      rw [take_concat clKey16 (ds ++ tail4 body) (16 + ds.length) ds.length
        (by rw [show clKey16.length = 16 from by decide])]
      rw [List.take_left]
    have h := @headersLoop_line _ false _ 0 _ _ hpD
      (by rw [hg17]; decide) h1 h2 hj1 hgLF1 (by omega)
    rw [hline] at h
    have hhh : handleHeader (clKey16 ++ ds) 0 = antoi ds := by
      have : clKey16 ++ ds = clPat ++ ':' :: ' ' :: ds := by
        simp only [clKey16, List.append_assoc, List.cons_append, List.nil_append]
      rw [this]
      exact handleHeader_cl clPat ds 0 (by decide) hds hne
    rw [hhh] at h
    exact h
  -- the empty line ending the header section
  have hp35 : 33 + ds.length + 2 < D.length := by omega
  have hgCR : D.get ⟨33 + ds.length + 2, hp35⟩ = '\r' := by
    rw [get_eq_of_eq e4 hp35]
    refine get_concat _ '\r' _ _ ?_ _
    simp only [sl17, sl15, clPat, List.length_append, List.length_cons, List.length_nil]
    omega
  have hp36 : 33 + ds.length + 2 + 1 < D.length := by omega
  have hgLF2 : D.get ⟨33 + ds.length + 2 + 1, hp36⟩ = '\n' := by
    rw [get_eq_of_eq e5 hp36]
    refine get_concat _ '\n' _ _ ?_ _
    simp only [sl17, sl15, clPat, List.length_append, List.length_cons, List.length_nil]
    omega
  have hdr2 : headersLoop D false (33 + ds.length + 2) (antoi ds) =
      .cont [] (33 + ds.length + 2 + 2) .body (antoi ds) := by
    rw [headersLoop_exit hp35 hgCR hp36 hgLF2]
    rw [if_neg (by omega)]
  have hdrAll : headersLoop D false 17 0 =
      .cont [Ev.header (clKey16 ++ ds)] (33 + ds.length + 2 + 2) .body (antoi ds) := by
    rw [hdr1, hdr2]
    rfl
  -- dispatch into the body stage
  rw [loop_headers_cont (by omega) hdrAll]
  have hbodyptr : ¬(D.length ≤ 33 + ds.length + 2 + 2) := by omega
  rw [loop_eq_body hbodyptr]
  have hchunk : min (D.length - (33 + ds.length + 2 + 2)) (antoi ds) = body.length := by
    rw [← hlen]
    have : D.length - (33 + ds.length + 2 + 2) = body.length := by omega
    rw [this, Nat.min_self]
  rw [hchunk]
  have hdropB : D.drop (33 + ds.length + 2 + 2) = body := by
    have h37 : 33 + ds.length + 2 + 2 =
        ((((sl17 ++ clPat) ++ (':' :: ' ' :: ds)) ++ ['\r', '\n', '\r', '\n'])).length := by
      simp only [sl17, sl15, clPat, List.length_append, List.length_cons, List.length_nil]
      omega
    rw [e6]
    exact drop_concat _ body _ h37
  rw [hdropB, List.take_length]
  rw [if_pos (by omega)]
  rw [loop_past_end (by omega)]
  rw [← hlen]
  have hfin : body.length - body.length = 0 := by omega
  rw [hfin]
  rfl


theorem loop_status17 (S : List Char) (rb : Nat) (hS : S ≠ []) :
    loop (sl15 ++ '\r' :: '\n' :: S) false 0 .statusLine rb =
      (Ev.start ver8 200 :: (loop (sl15 ++ '\r' :: '\n' :: S) false 17 .headers rb).1,
        (loop (sl15 ++ '\r' :: '\n' :: S) false 17 .headers rb).2) := by
  have hlen : (sl15 ++ '\r' :: '\n' :: S).length = 17 + S.length := by
    simp only [sl15, List.length_append, List.length_cons, List.length_nil]
    omega
  have hSpos : 0 < S.length := List.length_pos.mpr hS
  have h := @loop_status_main (sl15 ++ '\r' :: '\n' :: S) false 0 rb 8 12 15
    (by omega) (by omega) rfl rfl rfl rfl (by omega) rfl
  rw [if_neg (by omega)] at h
  exact h

/-- A complete sized response fed in one `feed` call from the cleared parser
state emits exactly `onResponseStart`, one `onHeader` for the Content-Length
line, one `onData` with the whole body, and `onDone`, leaving the parser
cleared. -/
theorem feed_sized_response (ds body : List Char)
    (hds : ∀ c ∈ ds, c.isDigit = true) (hne : ds ≠ [])
    (hlen : body.length = antoi ds) (hbody : body ≠ []) :
    feed initSt (sl15 ++ '\r' :: '\n' :: (clKey16 ++ (ds ++ tail4 body))) =
      ([Ev.start ver8 200, Ev.header (clKey16 ++ ds), Ev.data body, Ev.done],
        .ok initSt) := by
  have hfeed : feed initSt (sl15 ++ '\r' :: '\n' :: (clKey16 ++ (ds ++ tail4 body))) =
      loop (sl15 ++ '\r' :: '\n' :: (clKey16 ++ (ds ++ tail4 body)))
        false 0 .statusLine 0 := rfl
  rw [hfeed, loop_status17 _ 0 (by simp [clKey16, clPat])]
  have hX : sl15 ++ '\r' :: '\n' :: (clKey16 ++ (ds ++ tail4 body)) =
      sl17 ++ (clKey16 ++ (ds ++ tail4 body)) := by
    simp only [sl17, List.append_assoc, List.cons_append, List.nil_append]
  rw [hX, loop_headers_cl_eval ds body hds hne hlen hbody]

/-- The first chunk of the C1 failing input: `"HTTP/1.1 200 OK\r"`. -/
def chunk1 : List Char := sl15 ++ '\r' :: []

/-- The second chunk of the C1 failing input:
`"\nContent-Length: 1\r\n\r\nx"`. -/
def chunk2 : List Char := '\n' :: (clKey16 ++ ('1' :: [] ++ tail4 ('x' :: [])))

/-- A status line violating the `"HTTP/"` check:
`"XTTP/1.1 200 OK\r\n\r\n"`. -/
def badStatus : List Char :=
  'X' :: 'T' :: 'T' :: 'P' :: '/' :: '1' :: '.' :: '1' :: ' ' ::
  '2' :: '0' :: '0' :: ' ' :: 'O' :: 'K' :: '\r' :: '\n' :: '\r' :: '\n' :: []

theorem feed_chunk1 : feed initSt chunk1 = ([], .ok initSt) := by
  have hfeed : feed initSt chunk1 = loop chunk1 false 0 .statusLine 0 := rfl
  rw [hfeed]
  have h := @loop_status_lost chunk1 false 0 0 8 12 15
    (by decide) (by decide) rfl rfl rfl rfl (by decide)
  exact h

theorem feed_not_http {input : List Char} (h16 : 16 ≤ input.length)
    (hh : input.take 5 ≠ httpSlash) :
    feed initSt input = ([], .error "version must start with 'HTTP/'") := by
  have hfeed : feed initSt input = loop input false 0 .statusLine 0 := rfl
  rw [hfeed]
  exact loop_status_notHttp (by omega) (by omega) (by rw [List.drop_zero]; exact hh)

theorem feed_missing_lf (c : Char) (rest : List Char) (hc : c ≠ '\n') :
    feed initSt (sl15 ++ '\r' :: c :: rest) = ([], .error "expected \\n") := by
  have hfeed : feed initSt (sl15 ++ '\r' :: c :: rest) =
      loop (sl15 ++ '\r' :: c :: rest) false 0 .statusLine 0 := rfl
  rw [hfeed]
  have hlen : (sl15 ++ '\r' :: c :: rest).length = 17 + rest.length := by
    simp only [sl15, List.length_append, List.length_cons, List.length_nil]
    omega
  have h7 : (15 : Nat) + 1 < (sl15 ++ '\r' :: c :: rest).length := by omega
  have hget : (sl15 ++ '\r' :: c :: rest).get ⟨15 + 1, h7⟩ = c := by
    exact get_concat (sl15 ++ '\r' :: []) c rest 16 (by decide) _
  exact loop_status_badLF (by omega) (by omega) rfl rfl rfl rfl h7
    (by rw [hget]; exact hc)


/-- C1: the claim states that feeding any chunking of a byte string produces
the same callback sequence as one `feed` of the concatenation.  The code
violates this: fed `"HTTP/1.1 200 OK\r"` as its own chunk, `feed` returns at
line 233 of src/unnamed/part_001 without saving the consumed bytes to the
carry-over buffer (the data was not from the buffer), so the next `feed`
restarts the status line on `"\nContent-Length: 1\r\n\r\nx"` and throws
`version must start with 'HTTP/'` after emitting nothing, while the single
concatenated `feed` emits the full event sequence and succeeds. -/
theorem c1_chunking_not_invariant :
    feedSeq initSt [chunk1, chunk2] = ([], .error "version must start with 'HTTP/'") ∧
    feed initSt (chunk1 ++ chunk2) =
      ([Ev.start ver8 200, Ev.header (clKey16 ++ '1' :: []), Ev.data ('x' :: []),
        Ev.done], .ok initSt) ∧
    (feedSeq initSt [chunk1, chunk2]).1 ≠ (feed initSt (chunk1 ++ chunk2)).1 := by
  have hwhole : feed initSt (chunk1 ++ chunk2) =
      ([Ev.start ver8 200, Ev.header (clKey16 ++ '1' :: []), Ev.data ('x' :: []),
        Ev.done], .ok initSt) := by
    have hcat : chunk1 ++ chunk2 =
        sl15 ++ '\r' :: '\n' :: (clKey16 ++ ('1' :: [] ++ tail4 ('x' :: []))) := by
      simp only [chunk1, chunk2, List.append_assoc, List.cons_append, List.nil_append]
    rw [hcat]
    exact feed_sized_response ('1' :: []) ('x' :: []) (by decide) (by decide)
      (by decide) (by decide)
  have hchunk2 : feed initSt chunk2 = ([], .error "version must start with 'HTTP/'") := by
    exact feed_not_http (by decide) (by decide)
  have hseq : feedSeq initSt [chunk1, chunk2] =
      ([], .error "version must start with 'HTTP/'") := by
    simp only [feedSeq, feed_chunk1, hchunk2, List.nil_append]
  refine ⟨hseq, hwhole, ?_⟩
  rw [hseq, hwhole]
  simp

/-- C4: for every sized response (`Content-Length` header with an arbitrary
digit string `ds`, arbitrary body of matching length) parsed by one `feed`
from the cleared state, the bytes passed to `onData` concatenate to exactly
the original body, their total count equals the Content-Length value, and
`onDone` is invoked exactly once, immediately after the last body byte (the
full callback sequence is start, header, data, done). -/
theorem c4_sized_body_exact (ds body : List Char)
    (hds : ∀ c ∈ ds, c.isDigit = true) (hne : ds ≠ [])
    (hlen : body.length = antoi ds) (hbody : body ≠ []) :
    dataBytes (feed initSt (sl15 ++ '\r' :: '\n' :: (clKey16 ++ (ds ++ tail4 body)))).1
        = body ∧
    (dataBytes (feed initSt
        (sl15 ++ '\r' :: '\n' :: (clKey16 ++ (ds ++ tail4 body)))).1).length = antoi ds ∧
    doneCount (feed initSt
        (sl15 ++ '\r' :: '\n' :: (clKey16 ++ (ds ++ tail4 body)))).1 = 1 ∧
    (feed initSt (sl15 ++ '\r' :: '\n' :: (clKey16 ++ (ds ++ tail4 body)))).1 =
      [Ev.start ver8 200, Ev.header (clKey16 ++ ds), Ev.data body, Ev.done] ∧
    (feed initSt (sl15 ++ '\r' :: '\n' :: (clKey16 ++ (ds ++ tail4 body)))).2 =
      .ok initSt := by
  rw [feed_sized_response ds body hds hne hlen hbody]
  refine ⟨?_, ?_, rfl, rfl, rfl⟩
  · simp [dataBytes]
  · simp [dataBytes]
    omega

theorem c4_sized_body_exact_witness :
    (∀ c ∈ '5' :: [], c.isDigit = true) ∧ ('5' :: []) ≠ [] ∧
    ('h' :: 'e' :: 'l' :: 'l' :: 'o' :: [] : List Char).length = antoi ('5' :: []) ∧
    ('h' :: 'e' :: 'l' :: 'l' :: 'o' :: [] : List Char) ≠ [] ∧
    dataBytes (feed initSt (sl15 ++ '\r' :: '\n' ::
        (clKey16 ++ ('5' :: [] ++ tail4 ('h' :: 'e' :: 'l' :: 'l' :: 'o' :: []))))).1
      = 'h' :: 'e' :: 'l' :: 'l' :: 'o' :: [] :=
  ⟨by decide, by decide, by decide, by decide,
    (c4_sized_body_exact ('5' :: []) ('h' :: 'e' :: 'l' :: 'l' :: 'o' :: [])
      (by decide) (by decide) (by decide) (by decide)).1⟩

/-- C6 counterexample: on the input `"XTTP/1.1 200 OK\r\n\r\n"` (a status line
not starting with `HTTP/`) the parser fails, but contrary to the claim it does
not report the error through an `onDone(success=false)` callback: no `onDone`
event is emitted at all (the response parser's `onDone` takes no success flag);
the error surfaces as a thrown `ML::Exception`. -/
theorem c6_counterexample :
    (feed initSt badStatus).2 = .error "version must start with 'HTTP/'" ∧
    Ev.done ∉ (feed initSt badStatus).1 := by
  have h : feed initSt badStatus = ([], .error "version must start with 'HTTP/'") :=
    feed_not_http (by decide) (by decide)
  rw [h]
  exact ⟨rfl, by simp⟩

/-- C6 amended: on a syntactic violation the parser emits no further events;
for a violation in the status line (a first line not starting with `HTTP/`, or
a `\r` not followed by `\n`) it emits no events at all and reports the error
by throwing an exception from `feed` — not via an `onDone(success=false)`
callback, which the response parser does not have. -/
theorem c6_violation_throws_no_events (input : List Char) (c : Char)
    (rest : List Char) (h16 : 16 ≤ input.length)
    (hh : input.take 5 ≠ httpSlash) (hc : c ≠ '\n') :
    feed initSt input = ([], .error "version must start with 'HTTP/'") ∧
    feed initSt (sl15 ++ '\r' :: c :: rest) = ([], .error "expected \\n") :=
  ⟨feed_not_http h16 hh, feed_missing_lf c rest hc⟩

theorem c6_violation_throws_no_events_witness :
    16 ≤ badStatus.length ∧ badStatus.take 5 ≠ httpSlash ∧ ('X' : Char) ≠ '\n' ∧
    feed initSt badStatus = ([], .error "version must start with 'HTTP/'") :=
  ⟨by decide, by decide, by decide,
    (c6_violation_throws_no_events badStatus 'X' [] (by decide) (by decide)
      (by decide)).1⟩


theorem findFromAux_skip {c : Char} :
    ∀ (u w : List Char) (i : Nat), (∀ x ∈ u, x ≠ c) →
      findFromAux c (u ++ c :: w) i = i + u.length := by
  intro u
  induction u with
  | nil => intro w i _; simp [findFromAux]
  | cons x xs ih =>
    intro w i hu
    rw [List.cons_append, findFromAux, if_neg (hu x (by simp))]
    rw [ih w (i + 1) (fun y hy => hu y (by simp [hy]))]
    simp only [List.length_cons]
    omega

theorem findFrom_zero (key w : List Char) {c : Char} (hk : ∀ x ∈ key, x ≠ c) :
    findFrom (key ++ c :: w) c 0 = key.length := by
  rw [findFrom, List.drop_zero]
  have := findFromAux_skip key w 0 hk
  omega

theorem headerValueStart_eval (key : List Char) (v0 : Char) (w : List Char)
    (hv0 : v0 ≠ ' ') :
    headerValueStart (key ++ ':' :: ' ' :: v0 :: w) key.length = key.length + 2 := by
  rw [headerValueStart]
  rw [skipChars_stop key (' ' :: v0 :: w) (by decide)]
  rw [findFrom_here key (' ' :: v0 :: w)]
  have hsplit : key ++ ':' :: ' ' :: v0 :: w = (key ++ [':']) ++ ' ' :: v0 :: w := by
    simp
  rw [hsplit]
  have hl : key.length + 1 = (key ++ [':']).length := by simp
  rw [hl, skipChars_one (key ++ [':']) w hv0]
  simp

end HRP

namespace HP

/-- Lowercase characters of `"transfer-encoding"`. -/
def teLower : List Char :=
  't' :: 'r' :: 'a' :: 'n' :: 's' :: 'f' :: 'e' :: 'r' :: '-' ::
  'e' :: 'n' :: 'c' :: 'o' :: 'd' :: 'i' :: 'n' :: 'g' :: []

/-- Lowercase characters of `"connection"`. -/
def connLower : List Char :=
  'c' :: 'o' :: 'n' :: 'n' :: 'e' :: 'c' :: 't' :: 'i' :: 'o' :: 'n' :: []

/-- Lowercase characters of `"chunked"`. -/
def chunkedLower : List Char := 'c' :: 'h' :: 'u' :: 'n' :: 'k' :: 'e' :: 'd' :: []

/-- Lowercase characters of `"close"`. -/
def closeLower : List Char := 'c' :: 'l' :: 'o' :: 's' :: 'e' :: []

/-- The header-derived fields of the combined `HttpParser`
(src/service/http_parsers.h lines 123-130): `remainingBody_`,
`useChunkedEncoding_` and `requireClose_`. -/
structure HPSt where
  remainingBody_ : Nat
  useChunkedEncoding_ : Bool
  requireClose_ : Bool
  deriving DecidableEq, Repr

/-- Length of the header key: up to the first `':'` of the line. -/
def hpKeyLen (line : List Char) : Nat := HRP.findFrom line ':' 0

/-- The header value: after the colon, leading spaces skipped (the same
colon-and-spaces stepping as `HttpResponseParser::handleHeader`). -/
def hpValue (line : List Char) : List Char :=
  line.drop (HRP.headerValueStart line (hpKeyLen line))

/-- Modelled from the spec: the implementation of `HttpParser::handleHeader`
(`http_parsers.cc`) is not under `src/`; only its declaration and the fields it
sets appear in `src/service/http_parsers.h` (lines 95-131).  Per the spec
(§4.3 Headers), the parser inspects each header line case-insensitively and
recognizes `Content-Length: <n>` (sets `remainingBody_ = n`),
`Transfer-Encoding: chunked` (sets the chunked-encoding flag) and
`Connection: close` (sets the require-close flag); the numeric parse of the
Content-Length value follows `HttpResponseParser::handleHeader` of
src/unnamed/part_001. -/
def hpHandleHeader (st : HPSt) (line : List Char) : HPSt :=
  if (line.take (hpKeyLen line)).map Char.toLower = HRP.clLower then
    {st with remainingBody_ := HRP.antoi (hpValue line)}
  else if (line.take (hpKeyLen line)).map Char.toLower = teLower then
    if (hpValue line).map Char.toLower = chunkedLower then
      {st with useChunkedEncoding_ := true}
    else st
  else if (line.take (hpKeyLen line)).map Char.toLower = connLower then
    if (hpValue line).map Char.toLower = closeLower then
      {st with requireClose_ := true}
    else st
  else st

theorem ne_colon_of_map_toLower {key low : List Char}
    (hk : key.map Char.toLower = low) (hlow : ':' ∉ low) : ∀ x ∈ key, x ≠ ':' := by
  intro x hx hcolon
  apply hlow
  rw [← hk]
  subst hcolon
  exact List.mem_map.mpr ⟨':', hx, by decide⟩

theorem keyLen_eval (key v : List Char) {low : List Char}
    (hk : key.map Char.toLower = low) (hlow : ':' ∉ low) :
    hpKeyLen (key ++ ':' :: ' ' :: v) = key.length := by
  rw [hpKeyLen]
  exact HRP.findFrom_zero key (' ' :: v) (ne_colon_of_map_toLower hk hlow)

theorem hpValue_eval (key : List Char) (v0 : Char) (w : List Char) {low : List Char}
    (hk : key.map Char.toLower = low) (hlow : ':' ∉ low) (hv0 : v0 ≠ ' ') :
    hpValue (key ++ ':' :: ' ' :: v0 :: w) = v0 :: w := by
  rw [hpValue, keyLen_eval key (v0 :: w) hk hlow]
  rw [HRP.headerValueStart_eval key v0 w hv0]
  have hsplit : key ++ ':' :: ' ' :: v0 :: w = (key ++ [':', ' ']) ++ v0 :: w := by
    simp
  rw [hsplit]
  exact HRP.drop_concat _ _ _ (by simp)

theorem key_take_eval (key v : List Char) {low : List Char}
    (hk : key.map Char.toLower = low) (hlow : ':' ∉ low) :
    ((key ++ ':' :: ' ' :: v).take (hpKeyLen (key ++ ':' :: ' ' :: v))).map Char.toLower
      = low := by
  rw [keyLen_eval key v hk hlow, List.take_left, hk]

theorem head_ne_space_of_toLower {x : Char} {y : Char} (h : x.toLower = y)
    (hy : y ≠ ' ') : x ≠ ' ' := by
  rintro rfl
  apply hy
  rw [← h]
  decide

/-- C3: every header line is inspected case-insensitively: a
`Content-Length: <n>` line (any capitalization of the key, `n` the value of the
digits) sets `remainingBody_` to `n`; a `Transfer-Encoding: chunked` line sets
the chunked-encoding flag; a `Connection: close` line sets the require-close
flag; the other fields are untouched in each case. -/
theorem c3_header_recognition :
    (∀ (st : HPSt) (key ds : List Char), key.map Char.toLower = HRP.clLower →
      (∀ c ∈ ds, c.isDigit = true) → ds ≠ [] →
      hpHandleHeader st (key ++ ':' :: ' ' :: ds) =
        {st with remainingBody_ := HRP.antoi ds}) ∧
    (∀ (st : HPSt) (key v : List Char), key.map Char.toLower = teLower →
      v.map Char.toLower = chunkedLower →
      hpHandleHeader st (key ++ ':' :: ' ' :: v) =
        {st with useChunkedEncoding_ := true}) ∧
    (∀ (st : HPSt) (key v : List Char), key.map Char.toLower = connLower →
      v.map Char.toLower = closeLower →
      hpHandleHeader st (key ++ ':' :: ' ' :: v) =
        {st with requireClose_ := true}) := by
  refine ⟨?_, ?_, ?_⟩
  · intro st key ds hk hds hne
    obtain ⟨d0, ds2, rfl⟩ := List.exists_cons_of_ne_nil hne
    have hd0 : d0 ≠ ' ' := (HRP.digit_ne_special (hds d0 (by simp))).2.2.1
    rw [hpHandleHeader]
    rw [if_pos (key_take_eval key (d0 :: ds2) hk (by decide))]
    rw [hpValue_eval key d0 ds2 hk (by decide) hd0]
  · intro st key v hk hv
    obtain ⟨v0, w, rfl⟩ : ∃ v0 w, v = v0 :: w := by
      cases v with
      | nil => simp [chunkedLower] at hv
      | cons v0 w => exact ⟨v0, w, rfl⟩
    have hv0lower : v0.toLower = 'c' := by
      simp only [List.map_cons, chunkedLower, List.cons.injEq] at hv
      exact hv.1
    have hv0 : v0 ≠ ' ' := head_ne_space_of_toLower hv0lower (by decide)
    rw [hpHandleHeader]
    rw [if_neg (by rw [key_take_eval key (v0 :: w) hk (by decide)]; decide)]
    rw [if_pos (key_take_eval key (v0 :: w) hk (by decide))]
    rw [hpValue_eval key v0 w hk (by decide) hv0, hv]
    rw [if_pos rfl]
  · intro st key v hk hv
    obtain ⟨v0, w, rfl⟩ : ∃ v0 w, v = v0 :: w := by
      cases v with
      | nil => simp [closeLower] at hv
      | cons v0 w => exact ⟨v0, w, rfl⟩
    have hv0lower : v0.toLower = 'c' := by
      simp only [List.map_cons, closeLower, List.cons.injEq] at hv
      exact hv.1
    have hv0 : v0 ≠ ' ' := head_ne_space_of_toLower hv0lower (by decide)
    rw [hpHandleHeader]
    rw [if_neg (by rw [key_take_eval key (v0 :: w) hk (by decide)]; decide)]
    rw [if_neg (by rw [key_take_eval key (v0 :: w) hk (by decide)]; decide)]
    rw [if_pos (key_take_eval key (v0 :: w) hk (by decide))]
    rw [hpValue_eval key v0 w hk (by decide) hv0, hv]
    rw [if_pos rfl]

theorem c3_header_recognition_witness :
    (('c' :: 'O' :: 'n' :: 't' :: 'e' :: 'n' :: 't' :: '-' ::
      'l' :: 'E' :: 'n' :: 'g' :: 't' :: 'h' :: [] : List Char).map Char.toLower
        = HRP.clLower) ∧
    hpHandleHeader ⟨0, false, false⟩
      (('c' :: 'O' :: 'n' :: 't' :: 'e' :: 'n' :: 't' :: '-' ::
        'l' :: 'E' :: 'n' :: 'g' :: 't' :: 'h' :: []) ++ ':' :: ' ' :: '4' :: '2' :: [])
      = ⟨42, false, false⟩ := by
  constructor
  · decide
  · have h := c3_header_recognition.1 ⟨0, false, false⟩
      ('c' :: 'O' :: 'n' :: 't' :: 'e' :: 'n' :: 't' :: '-' ::
        'l' :: 'E' :: 'n' :: 'g' :: 't' :: 'h' :: []) ('4' :: '2' :: [])
      (by decide) (by decide) (by decide)
    rw [h]
    decide

end HP



namespace Tcp

/-- The connection states of `ClientTcpSocket` (tcp_socket.cc part of
src/service/http_parsers.h). -/
inductive ClientTcpSocketState where
  | DISCONNECTED
  | CONNECTING
  | CONNECTED
  | DISCONNECTING
  deriving DecidableEq, Repr

/-- The members of `ClientTcpSocket` touched by `write`: the connection state,
the bounded outbound queue `threadBuffer_` with its construction-time capacity,
the `remainingMsgs_` counter and the number of `wakeup_.signal()` calls. -/
structure Socket where
  state_ : ClientTcpSocketState
  threadBuffer_ : List String
  bufferSize : Nat
  remainingMsgs_ : Nat
  wakeups : Nat
  deriving DecidableEq, Repr

/-- `ClientTcpSocket::canSendMessages` (lines 428-435): connected or
connecting. -/
def canSendMessages (s : Socket) : Bool :=
  s.state_ = ClientTcpSocketState.CONNECTED ∨ s.state_ = ClientTcpSocketState.CONNECTING

/-- `tryPush` of the bounded MPSC ring buffer `threadBuffer_` (external `jml`
helper): enqueue unless the queue is at capacity. -/
def tryPush (q : List String) (cap : Nat) (data : String) : Option (List String) :=
  if q.length < cap then some (q ++ [data]) else none

/-- `ClientTcpSocket::write(string&&)` (lines 451-471): in Connecting/Connected,
try to enqueue — on success signal the wakeup fd and bump `remainingMsgs_`,
returning `true`; on a full queue return `false` with nothing enqueued.  In any
other state throw `"cannot write while not connected"`. -/
def write (s : Socket) (data : String) : Except String (Bool × Socket) :=
  if canSendMessages s then
    match tryPush s.threadBuffer_ s.bufferSize data with
    | some q' =>
      .ok (true, {s with threadBuffer_ := q', wakeups := s.wakeups + 1,
                         remainingMsgs_ := s.remainingMsgs_ + 1})
    | none => .ok (false, s)
  else
    .error "cannot write while not connected"

/-- C9: `write` enqueues the message and returns `true` when the socket is
Connecting or Connected and the bounded queue has room; it returns `false`
with the queue unchanged (no silent drop) exactly when the queue is full; and
in any other state it raises an error instead of enqueuing. -/
theorem c9_write_spec (s : Socket) (data : String) :
    ((s.state_ = ClientTcpSocketState.CONNECTING ∨
      s.state_ = ClientTcpSocketState.CONNECTED) →
      (s.threadBuffer_.length < s.bufferSize →
        write s data = .ok (true,
          {s with threadBuffer_ := s.threadBuffer_ ++ [data],
                  wakeups := s.wakeups + 1,
                  remainingMsgs_ := s.remainingMsgs_ + 1})) ∧
      (¬ s.threadBuffer_.length < s.bufferSize →
        write s data = .ok (false, s))) ∧
    (s.state_ ≠ ClientTcpSocketState.CONNECTING →
      s.state_ ≠ ClientTcpSocketState.CONNECTED →
      write s data = .error "cannot write while not connected") := by
  constructor
  · intro hstate
    have hcan : canSendMessages s = true := by
      rw [canSendMessages]
      rcases hstate with h | h
      · simp [h]
      · simp [h]
    constructor
    · intro hroom
      rw [write, if_pos hcan, tryPush, if_pos hroom]
    · intro hfull
      rw [write, if_pos hcan, tryPush, if_neg hfull]
  · intro h1 h2
    have hcan : ¬ (canSendMessages s = true) := by
      rw [canSendMessages]
      simp only [decide_eq_true_eq]
      rintro (h | h)
      · exact h2 h
      · exact h1 h
    rw [write, if_neg hcan]

theorem c9_write_spec_witness :
    ((Socket.mk ClientTcpSocketState.CONNECTED [] 2 0 0).state_ =
        ClientTcpSocketState.CONNECTING ∨
      (Socket.mk ClientTcpSocketState.CONNECTED [] 2 0 0).state_ =
        ClientTcpSocketState.CONNECTED) ∧
    write (Socket.mk ClientTcpSocketState.CONNECTED [] 2 0 0) "m" =
      .ok (true, Socket.mk ClientTcpSocketState.CONNECTED ["m"] 2 1 1) := by
  constructor
  · exact Or.inr rfl
  · have h := c9_write_spec (Socket.mk ClientTcpSocketState.CONNECTED [] 2 0 0) "m"
    have h2 := (h.1 (Or.inr rfl)).1 (by decide)
    exact h2

end Tcp


namespace Pool

/-- Queued HTTP requests, identified by an opaque tag. -/
abbrev Req := Nat

/-- State of the `HttpClient` connection pool (src/unnamed/part_001 lines
535-682): the fixed stash is indexed by `Fin N`; `avlConnections_` is the
pointer array whose suffix from `nextAvail_` is the idle stack;
`inThreadQueue_` is the overflow list.  `busy` (the set of connections
currently performing a request) and `performed` (the log of `perform` calls)
are observation-only ghost fields not present in the C++. -/
structure PState (N : Nat) where
  avlConnections_ : List (Fin N)
  nextAvail_ : Nat
  inThreadQueue_ : List Req
  busy : Finset (Fin N)
  performed : List (Fin N × Req)
  deriving DecidableEq

/-- The pool state after the `HttpClient` constructor (lines 537-565):
`avlConnections_[i] = &connectionStash_[i]`, `nextAvail_ = 0`, empty overflow
list, no connection busy. -/
def init (N : Nat) : PState N := ⟨List.finRange N, 0, [], ∅, []⟩

/-- The suffix of `avlConnections_` from `nextAvail_`: the idle stack. -/
def idleStack {N : Nat} (s : PState N) : List (Fin N) :=
  s.avlConnections_.drop s.nextAvail_

/-- `HttpClient::getConnection` (lines 655-672). -/
def getConnection {N : Nat} (s : PState N) : Option (Fin N) × PState N :=
  if h : s.nextAvail_ < s.avlConnections_.length then
    (some (s.avlConnections_.get ⟨s.nextAvail_, h⟩),
      {s with nextAvail_ := s.nextAvail_ + 1})
  else (none, s)

/-- `HttpClient::releaseConnection` (lines 674-682). -/
def releaseConnection {N : Nat} (conn : Fin N) (s : PState N) : PState N :=
  if 0 < s.nextAvail_ then
    {s with nextAvail_ := s.nextAvail_ - 1,
            avlConnections_ := s.avlConnections_.set (s.nextAvail_ - 1) conn,
            busy := s.busy.erase conn}
  else {s with busy := s.busy.erase conn}

/-- `HttpClient::handleQueueEvent` (lines 624-639): with a connection
available, pop it and `perform` the request; otherwise push the request onto
the overflow list. -/
def handleQueueEvent {N : Nat} (rq : Req) (s : PState N) : PState N :=
  if s.nextAvail_ < s.avlConnections_.length then
    match getConnection s with
    | (some conn, s') =>
      {s' with busy := insert conn s'.busy, performed := s'.performed ++ [(conn, rq)]}
    | (none, s') => s'
  else
    {s with inThreadQueue_ := s.inThreadQueue_ ++ [rq]}

/-- `HttpClient::handleHttpConnectionDone` (lines 641-653): with a non-empty
overflow list, `perform` the front request on the same connection; otherwise
release the connection back to the idle stack. -/
def handleHttpConnectionDone {N : Nat} (conn : Fin N) (s : PState N) : PState N :=
  match s.inThreadQueue_ with
  | rq :: rest =>
    {s with inThreadQueue_ := rest, performed := s.performed ++ [(conn, rq)]}
  | [] => releaseConnection conn s

/-- One externally triggered pool event: a request arrival dequeued from the
bounded queue, or a busy connection reporting `onDone`. -/
inductive Step (N : Nat) : PState N → PState N → Prop where
  | queue (rq : Req) (s : PState N) : Step N s (handleQueueEvent rq s)
  | done (conn : Fin N) (s : PState N) (h : conn ∈ s.busy) :
      Step N s (handleHttpConnectionDone conn s)

/-- Pool states reachable from the constructor state. -/
def Reachable (N : Nat) (s : PState N) : Prop :=
  Relation.ReflTransGen (Step N) (init N) s

/-- The pool invariant: the pointer array keeps its size, `nextAvail_` stays
in range, and the busy set and the idle stack partition the `N` connections. -/
def Inv {N : Nat} (s : PState N) : Prop :=
  s.avlConnections_.length = N ∧ s.nextAvail_ ≤ N ∧
  s.busy.val + ((idleStack s : List (Fin N)) : Multiset (Fin N)) =
    (Finset.univ : Finset (Fin N)).val

theorem inv_init (N : Nat) : Inv (init N) := by
  refine ⟨by simp [init], by simp [init], ?_⟩
  simp only [init, idleStack, List.drop_zero]
  rfl

theorem handleQueueEvent_avail {N : Nat} (rq : Req) (s : PState N)
    (h : s.nextAvail_ < s.avlConnections_.length) :
    handleQueueEvent rq s =
      {s with nextAvail_ := s.nextAvail_ + 1,
              busy := insert (s.avlConnections_.get ⟨s.nextAvail_, h⟩) s.busy,
              performed := s.performed ++
                [(s.avlConnections_.get ⟨s.nextAvail_, h⟩, rq)]} := by
  rw [handleQueueEvent, if_pos h, getConnection, dif_pos h]

theorem handleQueueEvent_full {N : Nat} (rq : Req) (s : PState N)
    (h : ¬(s.nextAvail_ < s.avlConnections_.length)) :
    handleQueueEvent rq s = {s with inThreadQueue_ := s.inThreadQueue_ ++ [rq]} := by
  rw [handleQueueEvent, if_neg h]

theorem handleDone_overflow {N : Nat} (conn : Fin N) (s : PState N) (rq : Req)
    (rest : List Req) (hq : s.inThreadQueue_ = rq :: rest) :
    handleHttpConnectionDone conn s =
      {s with inThreadQueue_ := rest, performed := s.performed ++ [(conn, rq)]} := by
  rw [handleHttpConnectionDone, hq]

theorem handleDone_empty {N : Nat} (conn : Fin N) (s : PState N)
    (hq : s.inThreadQueue_ = []) :
    handleHttpConnectionDone conn s = releaseConnection conn s := by
  rw [handleHttpConnectionDone, hq]

theorem inv_card {N : Nat} {s : PState N} (hinv : Inv s) :
    s.busy.card + (idleStack s).length = N := by
  obtain ⟨hlen, hna, hms⟩ := hinv
  have hcard := congrArg Multiset.card hms
  rw [Multiset.card_add] at hcard
  have huniv : Multiset.card (Finset.univ : Finset (Fin N)).val = N := by
    rw [← Finset.card_def, Finset.card_univ, Fintype.card_fin]
  rw [← Finset.card_def] at hcard
  simp only [Multiset.coe_card] at hcard
  omega

theorem inv_step {N : Nat} {s s' : PState N} (hinv : Inv s) (hstep : Step N s s') :
    Inv s' := by
  obtain ⟨hlen, hna, hms⟩ := hinv
  cases hstep with
  | queue rq s =>
    by_cases h : s.nextAvail_ < s.avlConnections_.length
    · rw [handleQueueEvent_avail rq s h]
      set conn := s.avlConnections_.get ⟨s.nextAvail_, h⟩ with hconn
      have hdrop : s.avlConnections_.drop s.nextAvail_ =
          conn :: s.avlConnections_.drop (s.nextAvail_ + 1) := by
        rw [hconn, List.get_eq_getElem]
        exact List.drop_eq_getElem_cons h
      rw [idleStack, hdrop, ← Multiset.cons_coe, Multiset.add_cons] at hms
      have hnotmem : conn ∉ s.busy := by
        intro hmem
        have hcnt := congrArg (Multiset.count conn) hms
        rw [Multiset.count_univ, Multiset.count_cons_self] at hcnt
        have h1 : 0 < Multiset.count conn s.busy.val := Multiset.count_pos.mpr hmem
        have h2 : Multiset.count conn
            (s.busy.val + ↑(s.avlConnections_.drop (s.nextAvail_ + 1))) =
            Multiset.count conn s.busy.val +
              Multiset.count conn ↑(s.avlConnections_.drop (s.nextAvail_ + 1)) :=
          Multiset.count_add conn _ _
        omega
      refine ⟨by simpa using hlen, by simp; omega, ?_⟩
      simp only [idleStack]
      rw [Finset.insert_val_of_not_mem hnotmem, Multiset.cons_add]
      exact hms
    · rw [handleQueueEvent_full rq s h]
      exact ⟨hlen, hna, hms⟩
  | done conn s hbusy =>
    cases hq : s.inThreadQueue_ with
    | cons rq rest =>
      rw [handleDone_overflow conn s rq rest hq]
      exact ⟨hlen, hna, hms⟩
    | nil =>
      have hcard : s.busy.card + (idleStack s).length = N := inv_card ⟨hlen, hna, hms⟩
      have hbusypos : 0 < s.busy.card := Finset.card_pos.mpr ⟨conn, hbusy⟩
      have hidlen : (idleStack s).length = s.avlConnections_.length - s.nextAvail_ := by
        rw [idleStack, List.length_drop]
      have hnapos : 0 < s.nextAvail_ := by omega
      rw [handleDone_empty conn s hq, releaseConnection, if_pos hnapos]
      refine ⟨by simpa using hlen, by simp; omega, ?_⟩
      simp only [idleStack]
      have hds : (s.avlConnections_.set (s.nextAvail_ - 1) conn).drop (s.nextAvail_ - 1) =
          conn :: s.avlConnections_.drop s.nextAvail_ := by
        rw [List.drop_set, if_neg (lt_irrefl _)]
        rw [List.drop_eq_getElem_cons
          (show s.nextAvail_ - 1 < s.avlConnections_.length by omega)]
        rw [show s.nextAvail_ - 1 + 1 = s.nextAvail_ from by omega]
        simp
      rw [hds, Finset.erase_val, ← Multiset.cons_coe, Multiset.add_cons,
        ← Multiset.cons_add, Multiset.cons_erase hbusy]
      simp only [idleStack] at hms
      exact hms

theorem inv_reachable {N : Nat} {s : PState N} (h : Reachable N s) : Inv s := by
  induction h with
  | refl => exact inv_init N
  | tail _ hstep ih => exact inv_step ih hstep

/-- C5: in every reachable pool state the busy connections and the idle stack
partition the `N` connections (`|busy| + |idleStack| = N`, and `nextAvail_`
counts exactly the busy connections); when a busy connection reports `onDone`
with a non-empty overflow list it is immediately reused for the front overflow
request — only the overflow list and the perform log change, in particular it
is not pushed back onto the idle stack; with an empty overflow list it is
pushed back onto the idle stack and ceases to be busy. -/
theorem c5_pool_invariant :
    (∀ (N : Nat) (s : PState N), Reachable N s →
      s.busy.card + (idleStack s).length = N ∧ s.busy.card = s.nextAvail_) ∧
    (∀ (N : Nat) (s : PState N) (conn : Fin N) (rq : Req) (rest : List Req),
      s.inThreadQueue_ = rq :: rest →
      handleHttpConnectionDone conn s =
        {s with inThreadQueue_ := rest, performed := s.performed ++ [(conn, rq)]}) ∧
    (∀ (N : Nat) (s : PState N) (conn : Fin N), Reachable N s → conn ∈ s.busy →
      s.inThreadQueue_ = [] →
      idleStack (handleHttpConnectionDone conn s) = conn :: idleStack s ∧
      conn ∉ (handleHttpConnectionDone conn s).busy ∧
      (handleHttpConnectionDone conn s).nextAvail_ = s.nextAvail_ - 1) := by
  refine ⟨?_, ?_, ?_⟩
  · intro N s hr
    have hinv := inv_reachable hr
    have hcard := inv_card hinv
    obtain ⟨hlen, hna, hms⟩ := hinv
    have hidlen : (idleStack s).length = s.avlConnections_.length - s.nextAvail_ := by
      rw [idleStack, List.length_drop]
    exact ⟨hcard, by omega⟩
  · intro N s conn rq rest hq
    exact handleDone_overflow conn s rq rest hq
  · intro N s conn hr hbusy hq
    have hinv := inv_reachable hr
    have hcard := inv_card hinv
    obtain ⟨hlen, hna, hms⟩ := hinv
    have hbusypos : 0 < s.busy.card := Finset.card_pos.mpr ⟨conn, hbusy⟩
    have hidlen : (idleStack s).length = s.avlConnections_.length - s.nextAvail_ := by
      rw [idleStack, List.length_drop]
    have hnapos : 0 < s.nextAvail_ := by omega
    rw [handleDone_empty conn s hq, releaseConnection, if_pos hnapos]
    refine ⟨?_, by simp, rfl⟩
    simp only [idleStack]
    rw [List.drop_set, if_neg (lt_irrefl _)]
    rw [List.drop_eq_getElem_cons
      (show s.nextAvail_ - 1 < s.avlConnections_.length by omega)]
    rw [show s.nextAvail_ - 1 + 1 = s.nextAvail_ from by omega]
    simp

theorem c5_pool_invariant_witness :
    Reachable 2 (handleQueueEvent 0 (init 2)) ∧
    (handleQueueEvent 0 (init 2)).busy.card +
      (idleStack (handleQueueEvent 0 (init 2))).length = 2 := by
  have hr : Reachable 2 (handleQueueEvent 0 (init 2)) :=
    Relation.ReflTransGen.single (Step.queue 0 (init 2))
  exact ⟨hr, (c5_pool_invariant.1 2 _ hr).1⟩

end Pool

/-! ## REST request router: path specs, filters, routes
    (`RestRequestRouter` in src/unnamed/part_001, lines 751-1231, and
    `RestRequestParsingContext` in src/service/in_process_rest_connection.h,
    lines 245-425). Strings are `List Char`; extracted objects are opaque
    tags. -/

namespace Rest

/-- Opaque stand-in for the `ObjectEntry` values stored in
`RestRequestParsingContext::objects`. -/
abbrev Obj := Nat

/-- `RestRequestParsingContext` (in_process_rest_connection.h lines 245-378):
`resources` (url components matched so far), `objects` (extracted objects),
`remaining` (the yet-unmatched tail of the resource path). -/
structure Ctx where
  resources : List (List Char)
  objects : List Obj
  remaining : List Char
deriving DecidableEq

/-- Result of a successful `boost::regex_search`: whether anything preceded
the match (`results.prefix().matched`), the full match `results[0]`, and the
capture groups `results[1..]`. -/
structure SMatch where
  prefixMatched : Bool
  full : List Char
  groups : List (List Char)
deriving DecidableEq

/-- A compiled regex, abstracted to its `mark_count()` and its search
function (`boost::regex_search` on a string). -/
structure RegexEngine where
  markCount : Nat
  search : List Char → Option SMatch

/-- `PathSpec` (part_001 lines 751-826): NONE, STRING with a literal path,
or REGEX with the source text and the compiled regex. -/
inductive PathSpec where
  | none
  | str (path : List Char)
  | regex (path : List Char) (rex : RegexEngine)

/-- `PathSpec::numCapturedElements` (part_001 lines 815-826): NONE captures
0 elements, STRING 1, REGEX `rex.mark_count() + 1`. -/
def PathSpec.numCapturedElements : PathSpec → Nat
  | .none => 0
  | .str _ => 1
  | .regex _ rex => rex.markCount + 1

/-- `std::string::find(pat)`: the smallest position where `pat` occurs in
`hay` in full, if any. -/
def strFind (hay pat : List Char) : Option Nat :=
  (List.range (hay.length + 1)).find? fun i => (hay.drop i).take pat.length == pat

/-- `RestRequestRouter::Route::matchPath` (part_001 lines 1108-1149).
STRING: `remaining.find(path) == 0` means match; push the literal onto
`resources` and strip it from `remaining`.  REGEX: `regex_search` must
succeed with nothing before the match (`!results.prefix().matched`); push
`results[0..]` and strip `results[0]`.  NONE throws
"unknown rest request type".  Failure paths leave the context untouched. -/
def matchPath (path : PathSpec) (ctx : Ctx) : Except String (Bool × Ctx) :=
  match path with
  | .str p =>
      match strFind ctx.remaining p with
      | some i =>
          if i = 0 then
            .ok (true, {ctx with resources := ctx.resources ++ [p],
                                 remaining := ctx.remaining.drop p.length})
          else .ok (false, ctx)
      | Option.none => .ok (false, ctx)
  | .regex _ rex =>
      match rex.search ctx.remaining with
      | some m =>
          if m.prefixMatched then .ok (false, ctx)
          else .ok (true, {ctx with resources := ctx.resources ++ (m.full :: m.groups),
                                    remaining := ctx.remaining.drop m.full.length})
      | Option.none => .ok (false, ctx)
  | .none => .error "unknown rest request type"

/-- Walking a chain of matched routes applies `matchPath` once per route
(part_001 line 1197 inside `Route::process`, which recurses into the
sub-router); `walkSpecs` is that composition over the path specs walked. -/
def walkSpecs : List PathSpec → Ctx → Except String (Bool × Ctx)
  | [], ctx => .ok (true, ctx)
  | s :: rest, ctx =>
      match matchPath s ctx with
      | .ok (true, ctx2) => walkSpecs rest ctx2
      | .ok (false, _) => .ok (false, ctx)
      | .error e => .error e

/-- Well-formedness of a regex engine, as guaranteed by `boost::smatch`:
`results.size() = mark_count() + 1`, and when nothing precedes the match the
full match is an initial segment of the searched string. -/
def EngineWF (rex : RegexEngine) : Prop :=
  ∀ s m, rex.search s = some m →
    m.groups.length = rex.markCount ∧
    (m.prefixMatched = false → s.take m.full.length = m.full)

def SpecWF : PathSpec → Prop
  | .regex _ rex => EngineWF rex
  | _ => True

def SpecsWF (l : List PathSpec) : Prop := ∀ s ∈ l, SpecWF s

theorem strFind_zero_iff (hay pat : List Char) :
    strFind hay pat = some 0 ↔ hay.take pat.length = pat := by
  by_cases hp : hay.take pat.length = pat
  · simp only [hp, iff_true]
    unfold strFind
    rw [List.range_succ_eq_map]
    rw [List.find?_cons_of_pos _ (by simp [hp])]
  · simp only [hp, iff_false]
    intro h
    unfold strFind at h
    have h2 := List.find?_some h
    simp only [List.drop_zero, beq_iff_eq] at h2
    exact hp h2

/-- Evaluation of `matchPath` on a STRING spec: it matches exactly when
`remaining` begins with the literal, pushing the literal and stripping it. -/
theorem matchPath_str (p : List Char) (ctx : Ctx) :
    matchPath (.str p) ctx =
      (if ctx.remaining.take p.length = p then
        .ok (true, {ctx with resources := ctx.resources ++ [p],
                             remaining := ctx.remaining.drop p.length})
       else .ok (false, ctx)) := by
  by_cases hp : ctx.remaining.take p.length = p
  · rw [if_pos hp]
    have h0 : strFind ctx.remaining p = some 0 := (strFind_zero_iff _ _).mpr hp
    simp [matchPath, h0]
  · rw [if_neg hp]
    cases hsf : strFind ctx.remaining p with
    | none => simp [matchPath, hsf]
    | some k =>
      have hk : k ≠ 0 := fun h0 => hp ((strFind_zero_iff _ _).mp (h0 ▸ hsf))
      simp [matchPath, hsf, hk]

/-- Evaluation of `matchPath` on a REGEX spec that succeeds. -/
theorem matchPath_regex_true (pp : List Char) (rex : RegexEngine) (ctx ctxA : Ctx)
    (hwf : EngineWF rex) (h : matchPath (.regex pp rex) ctx = .ok (true, ctxA)) :
    ∃ m, rex.search ctx.remaining = some m ∧ m.prefixMatched = false ∧
      ctxA.resources = ctx.resources ++ (m.full :: m.groups) ∧
      ctxA.resources.length =
        ctx.resources.length + (PathSpec.regex pp rex).numCapturedElements ∧
      ctx.remaining = m.full ++ ctxA.remaining ∧
      ctxA.objects = ctx.objects := by
  cases hm : rex.search ctx.remaining with
  | none => simp [matchPath, hm] at h
  | some m =>
    cases hpm : m.prefixMatched with
    | true => simp [matchPath, hm, hpm] at h
    | false =>
      have hmp : matchPath (.regex pp rex) ctx =
          .ok (true, {ctx with resources := ctx.resources ++ (m.full :: m.groups),
                               remaining := ctx.remaining.drop m.full.length}) := by
        simp [matchPath, hm, hpm]
      rw [hmp, Except.ok.injEq, Prod.mk.injEq] at h
      obtain ⟨-, h3⟩ := h
      subst h3
      obtain ⟨hg, hpre⟩ := hwf _ _ hm
      refine ⟨m, rfl, hpm, rfl, ?_, ?_, rfl⟩
      · simp [PathSpec.numCapturedElements, hg]
      · have ht := hpre hpm
        have := List.take_append_drop m.full.length ctx.remaining
        rw [ht] at this
        exact this.symm

theorem matchPath_true_len (s : PathSpec) (ctx ctxA : Ctx) (hwf : SpecWF s)
    (h : matchPath s ctx = .ok (true, ctxA)) :
    ctxA.resources.length = ctx.resources.length + s.numCapturedElements := by
  cases s with
  | none => simp [matchPath] at h
  | str p =>
    rw [matchPath_str] at h
    by_cases hp : ctx.remaining.take p.length = p
    · rw [if_pos hp, Except.ok.injEq, Prod.mk.injEq] at h
      obtain ⟨-, h3⟩ := h
      subst h3
      simp [PathSpec.numCapturedElements]
    · rw [if_neg hp] at h
      simp at h
  | regex pp rex =>
    obtain ⟨m, -, -, -, hlen, -, -⟩ := matchPath_regex_true pp rex ctx ctxA hwf h
    exact hlen

theorem walkSpecs_len (specs : List PathSpec) :
    ∀ ctx ctxA, SpecsWF specs → walkSpecs specs ctx = .ok (true, ctxA) →
      ctxA.resources.length =
        ctx.resources.length + (specs.map PathSpec.numCapturedElements).sum := by
  induction specs with
  | nil =>
    intro ctx ctxA _ h
    simp only [walkSpecs, Except.ok.injEq, Prod.mk.injEq] at h
    obtain ⟨-, h2⟩ := h
    subst h2
    simp
  | cons s rest ih =>
    intro ctx ctxA hwf h
    simp only [walkSpecs] at h
    cases hmp : matchPath s ctx with
    | error e => rw [hmp] at h; simp at h
    | ok pr =>
      obtain ⟨b, ctx1⟩ := pr
      cases b with
      | false => rw [hmp] at h; simp at h
      | true =>
        rw [hmp] at h
        simp only [] at h
        have h1 := matchPath_true_len s ctx ctx1 (hwf s (by simp)) hmp
        have h2 := ih ctx1 ctxA (fun x hx => hwf x (by simp [hx])) h
        simp only [List.map_cons, List.sum_cons]
        omega

/-- `RequestParamFilter::Location` (QUERY or HEADER). -/
inductive Location where
  | QUERY
  | HEADER
deriving DecidableEq

/-- A parameter filter: location, parameter name and required value. -/
structure RequestParamFilter where
  location : Location
  param : List Char
  value : List Char
deriving DecidableEq

/-- `RequestFilter` (part_001 lines 869-900): the verb set (modelled as the
list of its elements) and the parameter filters. -/
structure RequestFilter where
  verbs : List (List Char)
  filters : List RequestParamFilter
deriving DecidableEq

/-- `std::string::find(char)`: index of the first occurrence, if any. -/
def charFind : List Char → Char → Option Nat
  | [], _ => Option.none
  | a :: rest, c => if a = c then some 0 else (charFind rest c).map (· + 1)

/-- The characters of `"header:"`. -/
def hdrKey7 : List Char := ['h', 'e', 'a', 'd', 'e', 'r', ':']

/-- `RequestFilter::parseVerbs` (part_001 lines 902-931).  Entries of the
verb set containing `=` yield parameter filters (with a `header:` key
yielding a HEADER filter and the marker stripped); entries without `=` are
collected into the local `newVerbs`.  The function ends with
`newVerbs = verbs;` (line 930), assigning TO the local rather than to the
member, so the member `verbs` is left unchanged and the computed verb set is
discarded.  Only `filters` is updated. -/
def parseVerbs (f : RequestFilter) : RequestFilter :=
  { f with filters := f.filters ++ (f.verbs.foldl (fun acc v =>
      match charFind v '=' with
      | Option.none => acc
      | some i =>
          if strFind (v.take i) hdrKey7 = some 0 then
            acc ++ [⟨Location.HEADER, (v.take i).drop 7, v.drop (i + 1)⟩]
          else
            acc ++ [⟨Location.QUERY, v.take i, v.drop (i + 1)⟩]) []) }

/-- Modelled from the spec: what `parseVerbs` was evidently meant to do with
the verb set — keep only the entries without `=` (the code computes exactly
this in its local `newVerbs` but then discards it at line 930).  Used to
exhibit the divergence between the code and the spec sentence "an empty verb
set matches any verb" for filters built solely from key=value entries. -/
def specParseVerbs (f : RequestFilter) : RequestFilter :=
  { verbs := f.verbs.foldl (fun acc v =>
      match charFind v '=' with
      | Option.none => acc ++ [v]
      | some _ => acc) []
    filters := (parseVerbs f).filters }

/-- An HTTP response recorded on a connection:
`sendHttpResponse(code, body, contentType, headers)`. -/
structure SentResp where
  code : Nat
  body : String
  contentType : String
  headers : List (String × String)
deriving DecidableEq

/-- A REST request: verb, resource path, query parameters and headers. -/
structure Request where
  verb : List Char
  resource : List Char
  params : List (List Char × List Char)
  headers : List (List Char × List Char)

/-- The responses sent on a `RestConnection` while handling one request;
`responseSent()` is non-emptiness. -/
abbrev Conn := List SentResp

/-- `RestRequestRouter::MatchResult`. -/
inductive MatchResult where
  | MR_NO
  | MR_YES
  | MR_ASYNC
  | MR_ERROR
deriving DecidableEq

/-- `OnProcessRequest`: a terminal handler.  It receives the request, the
parsing context and the connection, and either returns a match result with
the (possibly modified) context and connection, or throws; a thrown
exception carries the state at unwind time. -/
abbrev Handler :=
  Request → Ctx → Conn → Except (String × Ctx × Conn) (MatchResult × Ctx × Conn)

/-- `ExtractObject`: attaches extracted objects to the context and may emit
an error response on the connection. -/
abbrev Extract := Request → Ctx → (List Obj × Option SentResp)

mutual
/-- `RestRequestRouter` (part_001 lines 972-988): optional root handler,
`terminal` flag, and sub-routes. -/
inductive Router where
  | mk (rootHandler : Option Handler) (terminal : Bool) (subRoutes : List Route)

/-- `RestRequestRouter::Route`: path spec, request filter, optional object
extractor, and the sub-router. -/
inductive Route where
  | mk (path : PathSpec) (filter : RequestFilter) (extractObject : Option Extract)
       (router : Router)
end

/-- `RestRequestParsingContext::State` (in_process_rest_connection.h lines
383-387): saved `remaining` and the lengths of `resources` and `objects`. -/
structure SavedState where
  remaining : List Char
  resourcesLength : Nat
  objectsLength : Nat

/-- `saveState` (lines 389-397). -/
def saveState (ctx : Ctx) : SavedState :=
  ⟨ctx.remaining, ctx.resources.length, ctx.objects.length⟩

/-- `restoreState` (lines 399-408): put back the saved `remaining`, truncate
`resources` and pop `objects` back to the saved lengths; the
`ExcAssertGreaterEqual` checks throw if either list shrank below its saved
length. -/
def restoreState (st : SavedState) (ctx : Ctx) : Except String Ctx :=
  if st.resourcesLength ≤ ctx.resources.length ∧ st.objectsLength ≤ ctx.objects.length then
    .ok { resources := ctx.resources.take st.resourcesLength,
          objects := ctx.objects.take st.objectsLength,
          remaining := st.remaining }
  else .error "ExcAssertGreaterEqual"

/-- `getVerbsStr` (part_001 lines 1019-1029): comma-join.  The iteration
order of the C++ `std::set` (lexicographic) is abstracted as list order; the
claims treat the verb set as order-irrelevant. -/
def getVerbsStr (vs : List (List Char)) : List Char :=
  vs.foldl (fun acc v => if acc = [] then v else acc ++ (',' :: v)) []

/-- `std::set` insertion, on the list-of-elements model. -/
def setInsert (s : List (List Char)) (v : List Char) : List (List Char) :=
  if v ∈ s then s else s ++ [v]

def setInsertAll (s : List (List Char)) (vs : List (List Char)) : List (List Char) :=
  vs.foldl setInsert s

def optionsVerb : List Char := ['O', 'P', 'T', 'I', 'O', 'N', 'S']

/-- `HttpHeader::tryGetHeader`: case-insensitive header lookup returning the
empty string when absent (implementation not under src/; behaviour per the
spec, and only its result value matters to the routing code). -/
def tryGetHeader (req : Request) (key : List Char) : List Char :=
  match req.headers.find? (fun p => p.1.map Char.toLower == key.map Char.toLower) with
  | some p => p.2
  | Option.none => []

/-- One iteration of the parameter-filter loop in `Route::process`
(part_001 lines 1170-1192). -/
def paramMatched (pf : RequestParamFilter) (req : Request) : Bool :=
  match pf.location with
  | .QUERY => req.params.any (fun p => p.1 == pf.param && p.2 == pf.value)
  | .HEADER => tryGetHeader req pf.param == pf.value

mutual
/-- `RestRequestRouter::options` (part_001 lines 1096-1106): fold the verb
accumulation over the sub-routes. -/
def routerOptions (r : Router) (req : Request) (ctx : Ctx)
    (acc : List (List Char)) : Except String (List (List Char)) :=
  match r with
  | .mk _ _ srs => optionsSubs srs req ctx acc
termination_by sizeOf r

def optionsSubs (rs : List Route) (req : Request) (ctx : Ctx)
    (acc : List (List Char)) : Except String (List (List Char)) :=
  match rs with
  | [] => .ok acc
  | sr :: rest =>
      match routeOptions sr req ctx acc with
      | .ok acc2 => optionsSubs rest req ctx acc2
      | .error e => .error e
termination_by sizeOf rs

/-- `RestRequestRouter::Route::options` (part_001 lines 1209-1231): under a
`StateGuard` (modelled by passing the context by value), match the path; on
failure contribute nothing; on success, if `remaining` is now empty insert
this route's filter verbs, then recurse into the sub-router with the
stripped context. -/
def routeOptions (rt : Route) (req : Request) (ctx : Ctx)
    (acc : List (List Char)) : Except String (List (List Char)) :=
  match rt with
  | .mk path f _ router =>
      match matchPath path ctx with
      | .ok (true, ctx2) =>
          if ctx2.remaining = [] then
            routerOptions router req ctx2 (setInsertAll acc f.verbs)
          else
            routerOptions router req ctx2 acc
      | .ok (false, _) => .ok acc
      | .error e => .error e
termination_by sizeOf rt
end

/-- `connection.sendErrorResponse(code, msg)`. -/
def sendErrorResponse (code : Nat) (msg : String) : SentResp := ⟨code, msg, "", []⟩

/-- The `extractObject` call site in `Route::process` (part_001 lines
1200-1201): append the extracted objects to the context and any emitted
error response to the connection. -/
def applyExtract (ex : Option Extract) (req : Request) (ctx : Ctx) (conn : Conn) :
    Ctx × Conn :=
  match ex with
  | some e =>
      match e req ctx with
      | (objs, some resp) => ({ctx with objects := ctx.objects ++ objs}, conn ++ [resp])
      | (objs, Option.none) => ({ctx with objects := ctx.objects ++ objs}, conn)
  | Option.none => (ctx, conn)

/-- The OPTIONS arm of `processRequest` (part_001 lines 1053-1068): send 400
when the accepted verb set is empty, else 200 (the help JSON body is
abstracted as `""`), always with the `Allow` header; an exception from the
verb collection propagates. -/
def optionsResponse (ctx : Ctx) (conn : Conn) (res : Except String (List (List Char))) :
    Except (String × Ctx × Conn) (MatchResult × Ctx × Conn) :=
  match res with
  | .ok vs =>
      if vs = [] then
        .ok (.MR_YES, ctx,
          conn ++ [⟨400, "", "", [("Allow", String.mk (getVerbsStr vs))]⟩])
      else
        .ok (.MR_YES, ctx,
          conn ++ [⟨200, "", "application/json",
                    [("Allow", String.mk (getVerbsStr vs))]⟩])
  | .error e => .error (e, ctx, conn)

mutual
/-- `RestRequestRouter::processRequest` (part_001 lines 1037-1094).  An
OPTIONS request collects the accepted verbs over the sub-routes and answers
via `optionsResponse`; otherwise the root handler runs when present (and the
route is non-terminal or the path is exhausted), else the sub-routes are
tried in order inside a try/catch that turns an exception into a 500
response with result MR_YES. -/
def processRequest (r : Router) (req : Request) (ctx : Ctx) (conn : Conn) :
    Except (String × Ctx × Conn) (MatchResult × Ctx × Conn) :=
  if req.verb = optionsVerb then
    optionsResponse ctx conn (routerOptions r req ctx [])
  else
    match r with
    | .mk rootHandler terminal subRoutes =>
        match rootHandler with
        | some h =>
            if terminal = false ∨ ctx.remaining = [] then h req ctx conn
            else processSubs subRoutes req ctx conn
        | Option.none => processSubs subRoutes req ctx conn
termination_by sizeOf r

/-- The sub-route loop of `processRequest` (part_001 lines 1073-1091),
including the catch clauses that send a 500 response. -/
def processSubs (rs : List Route) (req : Request) (ctx : Ctx) (conn : Conn) :
    Except (String × Ctx × Conn) (MatchResult × Ctx × Conn) :=
  match rs with
  | [] => .ok (.MR_NO, ctx, conn)
  | sr :: rest =>
      match routeProcess sr req ctx conn with
      | .ok (mr, ctx2, conn2) =>
          if mr = .MR_NO then processSubs rest req ctx2 conn2
          else .ok (mr, ctx2, conn2)
      | .error (msg, ctxE, connE) =>
          .ok (.MR_YES, ctxE,
               connE ++ [sendErrorResponse 500 ("threw exception: " ++ msg)])
termination_by sizeOf rs

/-- `RestRequestRouter::Route::process` (part_001 lines 1151-1207): reject on
the verb filter (a non-empty verb set not containing the request verb) or a
failing parameter filter; then, under a `StateGuard` on the context, match
the path (failure: MR_NO with the context untouched), run the extractor,
return MR_YES if a response was sent, else recurse into the sub-router.  On
every exit after the guard was installed — normal or exceptional — the guard
restores the saved state (the restore itself throws if the context lists
shrank below their saved lengths). -/
def routeProcess (rt : Route) (req : Request) (ctx : Ctx) (conn : Conn) :
    Except (String × Ctx × Conn) (MatchResult × Ctx × Conn) :=
  match rt with
  | .mk path f ex router =>
      if f.verbs ≠ [] ∧ req.verb ∉ f.verbs then .ok (.MR_NO, ctx, conn)
      else if f.filters.all (fun pf => paramMatched pf req) then
        match matchPath path ctx with
        | .error msg => .error (msg, ctx, conn)
        | .ok (false, _) => .ok (.MR_NO, ctx, conn)
        | .ok (true, ctx1) =>
            if (applyExtract ex req ctx1 conn).2 ≠ [] then
              match restoreState (saveState ctx) (applyExtract ex req ctx1 conn).1 with
              | .ok ctxR => .ok (.MR_YES, ctxR, (applyExtract ex req ctx1 conn).2)
              | .error msg =>
                  .error (msg, (applyExtract ex req ctx1 conn).1,
                          (applyExtract ex req ctx1 conn).2)
            else
              match processRequest router req (applyExtract ex req ctx1 conn).1
                  (applyExtract ex req ctx1 conn).2 with
              | .ok (mr, ctx3, conn3) =>
                  match restoreState (saveState ctx) ctx3 with
                  | .ok ctxR => .ok (mr, ctxR, conn3)
                  | .error msg => .error (msg, ctx3, conn3)
              | .error (msg, ctxE, connE) =>
                  match restoreState (saveState ctx) ctxE with
                  | .ok ctxR => .error (msg, ctxR, connE)
                  | .error _ => .error (msg, ctxE, connE)
      else .ok (.MR_NO, ctx, conn)
termination_by sizeOf rt
end

/-- The context a fresh request starts from:
`RestRequestParsingContext(request)` sets `remaining` to the resource. -/
def initCtx (req : Request) : Ctx := ⟨[], [], req.resource⟩

/-- The result dispatch of `RestRequestRouter::handleRequest` (part_001
lines 1013-1016): send a 404 when `processRequest` returned MR_NO. -/
def handleRequestAux (req : Request)
    (res : Except (String × Ctx × Conn) (MatchResult × Ctx × Conn)) :
    Except (String × Ctx × Conn) Conn :=
  match res with
  | .ok (mr, _, conn2) =>
      if mr = .MR_NO then
        .ok (conn2 ++ [sendErrorResponse 404
          ("unknown resource " ++ String.mk req.verb ++ " " ++ String.mk req.resource)])
      else .ok conn2
  | .error e => .error e

/-- `RestRequestRouter::handleRequest` (part_001 lines 1005-1017): run
`processRequest` on a fresh context and send a 404 when it returns MR_NO. -/
def handleRequest (r : Router) (req : Request) (conn : Conn) :
    Except (String × Ctx × Conn) Conn :=
  handleRequestAux req (processRequest r req (initCtx req) conn)

theorem restoreState_save_ok (ctx0 c r : Ctx)
    (h : restoreState (saveState ctx0) c = .ok r) :
    r.remaining = ctx0.remaining ∧ r.resources.length = ctx0.resources.length ∧
      r.objects.length = ctx0.objects.length := by
  simp only [restoreState, saveState] at h
  split at h
  · rename_i hcond
    obtain ⟨h1, h2⟩ := hcond
    rw [Except.ok.injEq] at h
    subst h
    refine ⟨rfl, ?_, ?_⟩
    · simp only [List.length_take]
      omega
    · simp only [List.length_take]
      omega
  · exact absurd h (by simp)

/-- Unfolding of `routeProcess` at a literal route. -/
theorem routeProcess_mk (path : PathSpec) (f : RequestFilter) (ex : Option Extract)
    (router : Router) (req : Request) (ctx : Ctx) (conn : Conn) :
    routeProcess (.mk path f ex router) req ctx conn =
      (if f.verbs ≠ [] ∧ req.verb ∉ f.verbs then .ok (.MR_NO, ctx, conn)
       else if f.filters.all (fun pf => paramMatched pf req) then
         match matchPath path ctx with
         | .error msg => .error (msg, ctx, conn)
         | .ok (false, _) => .ok (.MR_NO, ctx, conn)
         | .ok (true, ctx1) =>
             if (applyExtract ex req ctx1 conn).2 ≠ [] then
               match restoreState (saveState ctx) (applyExtract ex req ctx1 conn).1 with
               | .ok ctxR => .ok (.MR_YES, ctxR, (applyExtract ex req ctx1 conn).2)
               | .error msg =>
                   .error (msg, (applyExtract ex req ctx1 conn).1,
                           (applyExtract ex req ctx1 conn).2)
             else
               match processRequest router req (applyExtract ex req ctx1 conn).1
                   (applyExtract ex req ctx1 conn).2 with
               | .ok (mr, ctx3, conn3) =>
                   match restoreState (saveState ctx) ctx3 with
                   | .ok ctxR => .ok (mr, ctxR, conn3)
                   | .error msg => .error (msg, ctx3, conn3)
               | .error (msg, ctxE, connE) =>
                   match restoreState (saveState ctx) ctxE with
                   | .ok ctxR => .error (msg, ctxR, connE)
                   | .error _ => .error (msg, ctxE, connE)
       else .ok (.MR_NO, ctx, conn)) := by
  rw [routeProcess.eq_def]

/-- Unfolding of `routeOptions` at a literal route. -/
theorem routeOptions_mk (path : PathSpec) (f : RequestFilter) (ex : Option Extract)
    (router : Router) (req : Request) (ctx : Ctx) (acc : List (List Char)) :
    routeOptions (.mk path f ex router) req ctx acc =
      (match matchPath path ctx with
       | .ok (true, ctx2) =>
           if ctx2.remaining = [] then
             routerOptions router req ctx2 (setInsertAll acc f.verbs)
           else
             routerOptions router req ctx2 acc
       | .ok (false, _) => .ok acc
       | .error e => .error e) := by
  rw [routeOptions.eq_def]

theorem routerOptions_mk (rh : Option Handler) (t : Bool) (srs : List Route)
    (req : Request) (ctx : Ctx) (acc : List (List Char)) :
    routerOptions (.mk rh t srs) req ctx acc = optionsSubs srs req ctx acc := by
  rw [routerOptions.eq_def]

theorem optionsSubs_nil (req : Request) (ctx : Ctx) (acc : List (List Char)) :
    optionsSubs [] req ctx acc = .ok acc := by
  rw [optionsSubs.eq_def]

theorem optionsSubs_cons (sr : Route) (rest : List Route) (req : Request) (ctx : Ctx)
    (acc : List (List Char)) :
    optionsSubs (sr :: rest) req ctx acc =
      (match routeOptions sr req ctx acc with
       | .ok acc2 => optionsSubs rest req ctx acc2
       | .error e => .error e) := by
  rw [optionsSubs.eq_def]

theorem processSubs_nil (req : Request) (ctx : Ctx) (conn : Conn) :
    processSubs [] req ctx conn = .ok (.MR_NO, ctx, conn) := by
  rw [processSubs.eq_def]

theorem processSubs_cons (sr : Route) (rest : List Route) (req : Request)
    (ctx : Ctx) (conn : Conn) :
    processSubs (sr :: rest) req ctx conn =
      (match routeProcess sr req ctx conn with
       | .ok (mr, ctx2, conn2) =>
           if mr = .MR_NO then processSubs rest req ctx2 conn2
           else .ok (mr, ctx2, conn2)
       | .error (msg, ctxE, connE) =>
           .ok (.MR_YES, ctxE,
                connE ++ [sendErrorResponse 500 ("threw exception: " ++ msg)])) := by
  rw [processSubs.eq_def]

theorem processSubs_cons_no (rest : List Route) {sr : Route} {req : Request}
    {ctx : Ctx} {conn : Conn} {ctx2 : Ctx} {conn2 : Conn}
    (h : routeProcess sr req ctx conn = .ok (.MR_NO, ctx2, conn2)) :
    processSubs (sr :: rest) req ctx conn = processSubs rest req ctx2 conn2 := by
  rw [processSubs_cons, h]
  simp

theorem okTriple_eq {ε α β γ : Type} {a a2 : α} {b b2 : β} {c c2 : γ}
    (h : (Except.ok (a, b, c) : Except ε (α × β × γ)) = Except.ok (a2, b2, c2)) :
    a = a2 ∧ b = b2 ∧ c = c2 := by
  rw [Except.ok.injEq, Prod.mk.injEq, Prod.mk.injEq] at h
  exact h

theorem processRequest_none_noopt (t : Bool) (srs : List Route) (req : Request)
    (ctx : Ctx) (conn : Conn) (hv : ¬ req.verb = optionsVerb) :
    processRequest (.mk Option.none t srs) req ctx conn = processSubs srs req ctx conn := by
  rw [processRequest.eq_def, if_neg hv]

theorem routeProcess_verb_reject (path : PathSpec) (ex : Option Extract)
    (router : Router) (ctx : Ctx) (conn : Conn) {f : RequestFilter} {req : Request}
    (hv : f.verbs ≠ [] ∧ req.verb ∉ f.verbs) :
    routeProcess (.mk path f ex router) req ctx conn = .ok (.MR_NO, ctx, conn) := by
  rw [routeProcess_mk, if_pos hv]

/-- C10: `Route::process` restores the parsing context on every successful
return — whatever the match result, including MR_YES — so after the call
`remaining` and the lengths of `resources` and `objects` equal their values
from before the call; handlers observe the accumulated context only during
the call. -/
theorem c10_route_process_restores_context :
    ∀ (rt : Route) (req : Request) (ctx : Ctx) (conn : Conn)
      (mr : MatchResult) (ctxA : Ctx) (connA : Conn),
      routeProcess rt req ctx conn = .ok (mr, ctxA, connA) →
      ctxA.remaining = ctx.remaining ∧
      ctxA.resources.length = ctx.resources.length ∧
      ctxA.objects.length = ctx.objects.length := by
  intro rt req ctx conn mr ctxA connA h
  cases rt with
  | mk path f ex router =>
    rw [routeProcess_mk] at h
    split at h <;> (try split at h) <;> (try split at h) <;> (try split at h) <;>
      (try split at h) <;> (try split at h) <;>
    first
      | exact Except.noConfusion h
      | (obtain ⟨-, h2, -⟩ := okTriple_eq h
         subst h2
         exact ⟨rfl, rfl, rfl⟩)
      | (rename_i hres
         obtain ⟨-, h2, -⟩ := okTriple_eq h
         subst h2
         exact restoreState_save_ok _ _ _ hres)

def getVerbL : List Char := ['G', 'E', 'T']

def postVerbL : List Char := ['P', 'O', 'S', 'T']

def xPath : List Char := ['/', 'x']

/-- A terminal handler that sends a 200 response and reports MR_YES. -/
def okHandler : Handler :=
  fun _ ctx conn => .ok (.MR_YES, ctx, conn ++ [⟨200, "ok", "", []⟩])

def demoRoute1 : Route :=
  .mk (.str xPath) ⟨[getVerbL], []⟩ Option.none (.mk (some okHandler) true [])

def demoRoute2 : Route :=
  .mk (.str xPath) ⟨[postVerbL], []⟩ Option.none (.mk (some okHandler) true [])

/-- A router with GET and POST terminal routes under the literal path `/x`. -/
def demoRouter : Router := .mk Option.none false [demoRoute1, demoRoute2]

def demoOptionsReq : Request := ⟨optionsVerb, xPath, [], []⟩

def demoGetReq : Request := ⟨getVerbL, ['/', 'y'], [], []⟩

def xReq : Request := ⟨getVerbL, xPath, [], []⟩

theorem c10_route_process_restores_context_witness :
    routeProcess demoRoute1 xReq (initCtx xReq) [] =
      .ok (.MR_YES, ⟨[], [], xPath⟩, [⟨200, "ok", "", []⟩]) ∧
    (⟨[], [], xPath⟩ : Ctx).remaining = (initCtx xReq).remaining ∧
    (⟨[], [], xPath⟩ : Ctx).resources.length = (initCtx xReq).resources.length ∧
    (⟨[], [], xPath⟩ : Ctx).objects.length = (initCtx xReq).objects.length := by
  have hm : matchPath (.str xPath) (initCtx xReq) = .ok (true, ⟨[xPath], [], []⟩) := by
    rfl
  have hpr : processRequest (.mk (some okHandler) true []) xReq ⟨[xPath], [], []⟩ [] =
      .ok (.MR_YES, ⟨[xPath], [], []⟩, [⟨200, "ok", "", []⟩]) := by
    rw [processRequest.eq_def, if_neg (show ¬xReq.verb = optionsVerb by decide)]
    rfl
  have hres : restoreState (saveState (initCtx xReq)) ⟨[xPath], [], []⟩ =
      .ok ⟨[], [], xPath⟩ := by rfl
  have hverb : xReq.verb = getVerbL := rfl
  have hrp : routeProcess demoRoute1 xReq (initCtx xReq) [] =
      .ok (.MR_YES, ⟨[], [], xPath⟩, [⟨200, "ok", "", []⟩]) := by
    simp [demoRoute1, routeProcess_mk, hm, applyExtract, hpr, hres, hverb]
  exact ⟨hrp, c10_route_process_restores_context demoRoute1 xReq (initCtx xReq) []
    .MR_YES _ _ hrp⟩

/-- C2: a literal path spec matches exactly when `remaining` begins with the
literal, pushing the literal onto `resources` and stripping it from
`remaining`; a regex spec succeeds only anchored at the start of `remaining`
(nothing before the match), pushing the full match plus each capture group
— `1 + markCount` entries, in order — and stripping the full match; and over
any walk of matched specs, `resources` grows by exactly the sum of
`numCapturedElements` over the specs walked. -/
theorem c2_match_path_resources :
    (∀ (p : List Char) (ctx : Ctx),
      matchPath (.str p) ctx =
        (if ctx.remaining.take p.length = p then
          .ok (true, {ctx with resources := ctx.resources ++ [p],
                               remaining := ctx.remaining.drop p.length})
         else .ok (false, ctx))) ∧
    (∀ (pp : List Char) (rex : RegexEngine) (ctx ctxA : Ctx),
      EngineWF rex →
      matchPath (.regex pp rex) ctx = .ok (true, ctxA) →
      ∃ m, rex.search ctx.remaining = some m ∧ m.prefixMatched = false ∧
        ctxA.resources = ctx.resources ++ (m.full :: m.groups) ∧
        ctxA.resources.length =
          ctx.resources.length + (PathSpec.regex pp rex).numCapturedElements ∧
        ctx.remaining = m.full ++ ctxA.remaining ∧
        ctxA.objects = ctx.objects) ∧
    (∀ (specs : List PathSpec) (ctx ctxA : Ctx),
      SpecsWF specs → walkSpecs specs ctx = .ok (true, ctxA) →
      ctxA.resources.length =
        ctx.resources.length + (specs.map PathSpec.numCapturedElements).sum) :=
  ⟨matchPath_str, matchPath_regex_true, walkSpecs_len⟩

def slashA : List Char := ['/', 'a']

/-- A concrete regex engine: one capture group, matching `/x/` at the start
of the input and capturing `x`. -/
def demoEngine : RegexEngine :=
  ⟨1, fun s =>
    if s.take 3 = ['/', 'x', '/'] then some ⟨false, ['/', 'x', '/'], [['x']]⟩
    else Option.none⟩

def demoSpecs : List PathSpec := [.str slashA, .regex [] demoEngine]

def demoCtx : Ctx := ⟨[], [], ['/', 'a', '/', 'x', '/', 'q']⟩

def demoCtxA : Ctx := ⟨[['/', 'a'], ['/', 'x', '/'], ['x']], [], ['q']⟩

theorem demoEngineWF : EngineWF demoEngine := by
  intro s m h
  simp only [demoEngine] at h
  by_cases hc : s.take 3 = ['/', 'x', '/']
  · rw [if_pos hc, Option.some.injEq] at h
    subst h
    exact ⟨rfl, fun _ => hc⟩
  · rw [if_neg hc] at h
    exact absurd h (by simp)

theorem c2_match_path_resources_witness :
    SpecsWF demoSpecs ∧
    walkSpecs demoSpecs demoCtx = .ok (true, demoCtxA) ∧
    demoCtxA.resources.length =
      demoCtx.resources.length + (demoSpecs.map PathSpec.numCapturedElements).sum := by
  have hwf : SpecsWF demoSpecs := by
    intro s hs
    simp only [demoSpecs, List.mem_cons, List.not_mem_nil, or_false] at hs
    rcases hs with rfl | rfl
    · exact trivial
    · exact demoEngineWF
  have heval : walkSpecs demoSpecs demoCtx = .ok (true, demoCtxA) := by rfl
  exact ⟨hwf, heval, c2_match_path_resources.2.2 demoSpecs demoCtx demoCtxA hwf heval⟩

def tjVerb : List Char := ['t', 'y', 'p', 'e', '=', 'j', 's', 'o', 'n']

def typeKey : List Char := ['t', 'y', 'p', 'e']

def jsonVal : List Char := ['j', 's', 'o', 'n']

def tjFilter : RequestFilter := parseVerbs ⟨[tjVerb], []⟩

def tjReq : Request := ⟨getVerbL, [], [(typeKey, jsonVal)], []⟩

def tjRoute : Route := .mk (.str []) tjFilter Option.none (.mk (some okHandler) true [])

/-- C7: contrary to the claim, `parseVerbs` does NOT move `key=value`
entries out of the verb set: the computed replacement set is discarded by
the dead store `newVerbs = verbs;` at part_001 line 930.  A filter built
solely from `type=json` does gain the QUERY parameter filter, but its verb
set stays `{"type=json"}` — not empty — so a GET request whose query
parameters satisfy the parameter filter is still rejected (MR_NO) by the
verb check of `Route::process`.  `specParseVerbs`, which follows the spec
wording, yields the empty verb set. -/
theorem c7_key_value_entries_stay_verbs :
    (parseVerbs ⟨[tjVerb], []⟩).filters = [⟨Location.QUERY, typeKey, jsonVal⟩] ∧
    (parseVerbs ⟨[tjVerb], []⟩).verbs = [tjVerb] ∧
    (specParseVerbs ⟨[tjVerb], []⟩).verbs = [] ∧
    paramMatched ⟨Location.QUERY, typeKey, jsonVal⟩ tjReq = true ∧
    routeProcess tjRoute tjReq (initCtx tjReq) [] = .ok (.MR_NO, initCtx tjReq, []) := by
  refine ⟨by decide, by decide, by decide, by decide, ?_⟩
  exact routeProcess_verb_reject (.str []) Option.none (.mk (some okHandler) true [])
    (initCtx tjReq) [] ⟨by decide, by decide⟩

/-- C8: for an OPTIONS request the router synthesizes the response from the
verbs collected over the child routes — 200 when the accepted verb set is
non-empty, 400 when it is empty, in both cases with an `Allow` header
listing the set; for a non-OPTIONS request on which `processRequest` returns
MR_NO, `handleRequest` sends a 404 "unknown resource" response.  The demo
router with GET and POST terminal routes under `/x` answers `OPTIONS /x`
with 200 and `Allow: GET,POST`. -/
theorem c8_options_and_404 :
    (∀ (r : Router) (req : Request) (ctx : Ctx) (conn : Conn) (vs : List (List Char)),
      req.verb = optionsVerb → routerOptions r req ctx [] = .ok vs →
      processRequest r req ctx conn =
        (if vs = [] then
          .ok (.MR_YES, ctx,
            conn ++ [⟨400, "", "", [("Allow", String.mk (getVerbsStr vs))]⟩])
         else
          .ok (.MR_YES, ctx,
            conn ++ [⟨200, "", "application/json",
                      [("Allow", String.mk (getVerbsStr vs))]⟩]))) ∧
    (∀ (r : Router) (req : Request) (conn : Conn) (ctxA : Ctx) (connA : Conn),
      processRequest r req (initCtx req) conn = .ok (.MR_NO, ctxA, connA) →
      handleRequest r req conn =
        .ok (connA ++ [sendErrorResponse 404
          ("unknown resource " ++ String.mk req.verb ++ " " ++
            String.mk req.resource)])) ∧
    handleRequest demoRouter demoOptionsReq [] =
      .ok [⟨200, "", "application/json", [("Allow", "GET,POST")]⟩] := by
  refine ⟨?_, ?_, ?_⟩
  · intro r req ctx conn vs hverb hopt
    rw [processRequest.eq_def, if_pos hverb, hopt]
    by_cases hvs : vs = []
    · rw [if_pos hvs, optionsResponse, if_pos hvs]
    · rw [if_neg hvs, optionsResponse, if_neg hvs]
  · intro r req conn ctxA connA h
    rw [handleRequest, h, handleRequestAux, if_pos rfl]
  · have hm : matchPath (.str xPath) (initCtx demoOptionsReq) =
        .ok (true, ⟨[xPath], [], []⟩) := by rfl
    have hne : ¬postVerbL = getVerbL := by decide
    have hopt : routerOptions demoRouter demoOptionsReq (initCtx demoOptionsReq) [] =
        .ok [getVerbL, postVerbL] := by
      simp [demoRouter, demoRoute1, demoRoute2, routerOptions_mk, optionsSubs_cons,
            routeOptions_mk, hm, optionsSubs_nil, setInsertAll, setInsert, hne]
    have h1 : processRequest demoRouter demoOptionsReq (initCtx demoOptionsReq) [] =
        .ok (.MR_YES, initCtx demoOptionsReq,
          [⟨200, "", "application/json",
            [("Allow", String.mk (getVerbsStr [getVerbL, postVerbL]))]⟩]) := by
      rw [processRequest.eq_def,
        if_pos (show demoOptionsReq.verb = optionsVerb from rfl), hopt]
      rfl
    rw [handleRequest, h1, handleRequestAux]
    rfl

theorem c8_options_and_404_witness :
    processRequest demoRouter demoGetReq (initCtx demoGetReq) [] =
      .ok (.MR_NO, initCtx demoGetReq, []) ∧
    handleRequest demoRouter demoGetReq [] =
      .ok ([] ++ [sendErrorResponse 404
        ("unknown resource " ++ String.mk demoGetReq.verb ++ " " ++
          String.mk demoGetReq.resource)]) := by
  have hm2 : matchPath (.str xPath) (initCtx demoGetReq) =
      .ok (false, initCtx demoGetReq) := by rfl
  have h1 : routeProcess demoRoute1 demoGetReq (initCtx demoGetReq) [] =
      .ok (.MR_NO, initCtx demoGetReq, []) := by
    simp [demoRoute1, routeProcess_mk, hm2]
  have h2 : routeProcess demoRoute2 demoGetReq (initCtx demoGetReq) [] =
      .ok (.MR_NO, initCtx demoGetReq, []) :=
    routeProcess_verb_reject (.str xPath) Option.none (.mk (some okHandler) true [])
      (initCtx demoGetReq) [] ⟨by decide, by decide⟩
  have h : processRequest demoRouter demoGetReq (initCtx demoGetReq) [] =
      .ok (.MR_NO, initCtx demoGetReq, []) := by
    simp only [demoRouter]
    rw [processRequest_none_noopt _ _ _ _ _ (by decide),
        processSubs_cons_no _ h1, processSubs_cons_no _ h2, processSubs_nil]
  exact ⟨h, c8_options_and_404.2.1 demoRouter demoGetReq [] (initCtx demoGetReq) [] h⟩

end Rest

end Soa
